import Mathlib

/-!
Shallow embedding of the particle-accelerator simulator (pas) in Lean 4.

C++ `double` arithmetic is modelled by exact real arithmetic on `ℝ`;
`glm::dvec3` becomes `Vec3`, `glm::dquat` becomes `Quat`.  Every definition
below is translated directly from the corresponding source function; the
`pas.` namespaces mirror the C++ namespaces.  Particle ids (a process-global
counter that no claim mentions) are omitted from the particle state.
-/

noncomputable section

open Classical

namespace pas

/-- Three-component real vector, modelling `glm::dvec3`. -/
@[ext] structure Vec3 where
  x : ℝ
  y : ℝ
  z : ℝ

namespace Vec3

instance : Zero Vec3 := ⟨⟨0, 0, 0⟩⟩
instance : Add Vec3 := ⟨fun a b => ⟨a.x + b.x, a.y + b.y, a.z + b.z⟩⟩
instance : Sub Vec3 := ⟨fun a b => ⟨a.x - b.x, a.y - b.y, a.z - b.z⟩⟩
instance : Neg Vec3 := ⟨fun a => ⟨-a.x, -a.y, -a.z⟩⟩
instance : SMul ℝ Vec3 := ⟨fun s a => ⟨s * a.x, s * a.y, s * a.z⟩⟩

@[simp] theorem zero_x : (0 : Vec3).x = 0 := rfl
@[simp] theorem zero_y : (0 : Vec3).y = 0 := rfl
@[simp] theorem zero_z : (0 : Vec3).z = 0 := rfl
@[simp] theorem add_x (a b : Vec3) : (a + b).x = a.x + b.x := rfl
@[simp] theorem add_y (a b : Vec3) : (a + b).y = a.y + b.y := rfl
@[simp] theorem add_z (a b : Vec3) : (a + b).z = a.z + b.z := rfl
@[simp] theorem sub_x (a b : Vec3) : (a - b).x = a.x - b.x := rfl
@[simp] theorem sub_y (a b : Vec3) : (a - b).y = a.y - b.y := rfl
@[simp] theorem sub_z (a b : Vec3) : (a - b).z = a.z - b.z := rfl
@[simp] theorem neg_x (a : Vec3) : (-a).x = -a.x := rfl
@[simp] theorem neg_y (a : Vec3) : (-a).y = -a.y := rfl
@[simp] theorem neg_z (a : Vec3) : (-a).z = -a.z := rfl
@[simp] theorem smul_x (s : ℝ) (a : Vec3) : (s • a).x = s * a.x := rfl
@[simp] theorem smul_y (s : ℝ) (a : Vec3) : (s • a).y = s * a.y := rfl
@[simp] theorem smul_z (s : ℝ) (a : Vec3) : (s • a).z = s * a.z := rfl

/-- Dot product, modelling `glm::dot`. -/
def dot (a b : Vec3) : ℝ := a.x * b.x + a.y * b.y + a.z * b.z

/-- Cross product, modelling `glm::cross`. -/
def cross (a b : Vec3) : Vec3 :=
  ⟨a.y * b.z - a.z * b.y, a.z * b.x - a.x * b.z, a.x * b.y - a.y * b.x⟩

/-- Euclidean length, modelling `glm::length`. -/
def length (v : Vec3) : ℝ := Real.sqrt (dot v v)

/-- Componentwise division by a scalar, modelling `glm` `vec / scalar`. -/
def divs (v : Vec3) (s : ℝ) : Vec3 := ⟨v.x / s, v.y / s, v.z / s⟩

/-- Componentwise vector product, modelling `glm` `vec * vec`. -/
def compMul (a b : Vec3) : Vec3 := ⟨a.x * b.x, a.y * b.y, a.z * b.z⟩

/-- Componentwise square root, modelling `glm::sqrt` on vectors. -/
def sqrtComp (v : Vec3) : Vec3 := ⟨Real.sqrt v.x, Real.sqrt v.y, Real.sqrt v.z⟩

@[simp] theorem divs_x (v : Vec3) (s : ℝ) : (v.divs s).x = v.x / s := rfl
@[simp] theorem divs_y (v : Vec3) (s : ℝ) : (v.divs s).y = v.y / s := rfl
@[simp] theorem divs_z (v : Vec3) (s : ℝ) : (v.divs s).z = v.z / s := rfl

theorem dot_nonneg (v : Vec3) : 0 ≤ dot v v := by
  simp only [dot]
  nlinarith [sq_nonneg v.x, sq_nonneg v.y, sq_nonneg v.z]

theorem length_nonneg (v : Vec3) : 0 ≤ length v := Real.sqrt_nonneg _

theorem length_eq_zero_iff (v : Vec3) : length v = 0 ↔ v = 0 := by
  constructor
  · intro h
    have h2 : dot v v = 0 := by
      have := Real.sqrt_eq_zero (dot_nonneg v) |>.mp h
      exact this
    have hx : v.x = 0 ∧ v.y = 0 ∧ v.z = 0 := by
      simp only [dot] at h2
      refine ⟨?_, ?_, ?_⟩ <;> nlinarith [sq_nonneg v.x, sq_nonneg v.y, sq_nonneg v.z]
    ext <;> simp [hx.1, hx.2.1, hx.2.2]
  · intro h; subst h; simp [length, dot]

theorem sq_length (v : Vec3) : length v * length v = dot v v :=
  Real.mul_self_sqrt (dot_nonneg v)

@[simp] theorem smul_zero_vec (s : ℝ) : s • (0 : Vec3) = 0 := by
  ext <;> simp

@[simp] theorem add_zero_vec (v : Vec3) : v + 0 = v := by
  ext <;> simp

@[simp] theorem zero_add_vec (v : Vec3) : (0 : Vec3) + v = v := by
  ext <;> simp

theorem dot_smul_smul (s : ℝ) (v : Vec3) : dot (s • v) (s • v) = s * s * dot v v := by
  simp only [dot, smul_x, smul_y, smul_z]; ring

theorem smul_divs_cancel (s : ℝ) (hs : s ≠ 0) (v : Vec3) : s • v.divs s = v := by
  ext <;> simp <;> field_simp

end Vec3

namespace physics

namespace constants

/-- Speed of light in vacuum (m/s), from `Constants.hpp`. -/
def c : ℝ := 299792458.0

/-- Speed of light squared, from `Constants.hpp`. -/
def c2 : ℝ := c * c

theorem c_pos : 0 < c := by norm_num [c]

namespace relativistic

/-- `gammaFromBeta` from `Constants.hpp`: `1 / sqrt(1 - beta^2)`. -/
def gammaFromBeta (beta : ℝ) : ℝ := 1 / Real.sqrt (1 - beta * beta)

/-- `betaFromGamma` from `Constants.hpp`: `sqrt(1 - 1/gamma^2)`. -/
def betaFromGamma (gamma : ℝ) : ℝ := Real.sqrt (1 - 1 / (gamma * gamma))

/-- `gammaFromMomentum` from `Constants.hpp`: `sqrt(1 + (p/(m c))^2)`. -/
def gammaFromMomentum (momentum restMass : ℝ) : ℝ :=
  Real.sqrt (1 + momentum / (restMass * c) * (momentum / (restMass * c)))

end relativistic

end constants

open constants

/-- Particle state, from `Particle.hpp`/`Particle.cpp` (the process-global id
counter is omitted; no claim concerns ids). -/
structure Particle where
  position : Vec3
  momentum : Vec3
  mass : ℝ
  charge : ℝ
  restEnergy : ℝ
  gamma : ℝ
  beta : ℝ
  active : Bool

namespace Particle

/-- `Particle::getMomentumMagnitude`. -/
def getMomentumMagnitude (p : Particle) : ℝ := p.momentum.length

/-- `Particle::updateDerivedQuantities`. -/
def updateDerivedQuantities (p : Particle) : Particle :=
  if p.getMomentumMagnitude > 0 ∧ p.mass > 0 then
    { p with
      gamma := Real.sqrt (1 + p.getMomentumMagnitude / (p.mass * c) *
        (p.getMomentumMagnitude / (p.mass * c)))
      beta := relativistic.betaFromGamma
        (Real.sqrt (1 + p.getMomentumMagnitude / (p.mass * c) *
          (p.getMomentumMagnitude / (p.mass * c)))) }
  else
    { p with gamma := 1, beta := 0 }

/-- The `Particle` constructor: stores fields, sets `restEnergy = mass*c2`,
`gamma = 1`, `beta = 0`, `active = true`, then `updateDerivedQuantities`. -/
def make (mass charge : ℝ) (position momentum : Vec3) : Particle :=
  updateDerivedQuantities
    { position := position, momentum := momentum, mass := mass, charge := charge
      restEnergy := mass * c2, gamma := 1, beta := 0, active := true }

/-- `Particle::setMomentum`. -/
def setMomentum (p : Particle) (momentum : Vec3) : Particle :=
  updateDerivedQuantities { p with momentum := momentum }

/-- `Particle::setPx`. -/
def setPx (p : Particle) (px : ℝ) : Particle :=
  updateDerivedQuantities { p with momentum := ⟨px, p.momentum.y, p.momentum.z⟩ }

/-- `Particle::setPy`. -/
def setPy (p : Particle) (py : ℝ) : Particle :=
  updateDerivedQuantities { p with momentum := ⟨p.momentum.x, py, p.momentum.z⟩ }

/-- `Particle::setPz`. -/
def setPz (p : Particle) (pz : ℝ) : Particle :=
  updateDerivedQuantities { p with momentum := ⟨p.momentum.x, p.momentum.y, pz⟩ }

/-- `Particle::setPosition`. -/
def setPosition (p : Particle) (pos : Vec3) : Particle := { p with position := pos }

/-- `Particle::setActive`. -/
def setActive (p : Particle) (a : Bool) : Particle := { p with active := a }

/-- `Particle::getVelocity`: `p / (gamma * m)` when `gamma > 0` and `m > 0`,
else the zero vector. -/
def getVelocity (p : Particle) : Vec3 :=
  if p.gamma > 0 ∧ p.mass > 0 then p.momentum.divs (p.gamma * p.mass) else 0

/-- `Particle::setVelocity`, with the subluminal clamp. -/
def setVelocity (p : Particle) (velocity : Vec3) : Particle :=
  if velocity.length ≥ c then
    { p with
      beta := (((0.999999 * c / velocity.length) • velocity).length) / c
      gamma := relativistic.gammaFromBeta
        ((((0.999999 * c / velocity.length) • velocity).length) / c)
      momentum := (relativistic.gammaFromBeta
          ((((0.999999 * c / velocity.length) • velocity).length) / c) * p.mass) •
        ((0.999999 * c / velocity.length) • velocity) }
  else if velocity.length > 0 then
    { p with
      beta := velocity.length / c
      gamma := relativistic.gammaFromBeta (velocity.length / c)
      momentum := (relativistic.gammaFromBeta (velocity.length / c) * p.mass) • velocity }
  else
    { p with beta := 0, gamma := 1, momentum := 0 }

/-- `Particle::getTotalEnergy`. -/
def getTotalEnergy (p : Particle) : ℝ := p.gamma * p.restEnergy

/-- `Particle::getKineticEnergy`. -/
def getKineticEnergy (p : Particle) : ℝ := (p.gamma - 1) * p.restEnergy

/-- `Particle::setKineticEnergy`. -/
def setKineticEnergy (p : Particle) (kineticEnergy : ℝ) (direction : Vec3) : Particle :=
  let gamma := 1 + kineticEnergy / p.restEnergy
  let beta := relativistic.betaFromGamma gamma
  let dir :=
    if direction.length < 1e-10 then
      if p.getMomentumMagnitude > 1e-30 then p.momentum.divs p.getMomentumMagnitude
      else (⟨0, 0, 1⟩ : Vec3)
    else direction.divs direction.length
  { p with gamma := gamma, beta := beta,
           momentum := (gamma * beta * p.mass * c) • dir }

end Particle

/-- Electromagnetic field value `(E, B)`, from `EMField.hpp`. -/
structure FieldValue where
  E : Vec3
  B : Vec3

namespace FieldValue

instance : Zero FieldValue := ⟨⟨0, 0⟩⟩
instance : Add FieldValue := ⟨fun a b => ⟨a.E + b.E, a.B + b.B⟩⟩

@[simp] theorem zero_E : (0 : FieldValue).E = 0 := rfl
@[simp] theorem zero_B : (0 : FieldValue).B = 0 := rfl
@[simp] theorem add_E (a b : FieldValue) : (a + b).E = a.E + b.E := rfl
@[simp] theorem add_B (a b : FieldValue) : (a + b).B = a.B + b.B := rfl

@[simp] theorem add_zero_fv (a : FieldValue) : a + 0 = a := by
  show FieldValue.mk (a.E + 0) (a.B + 0) = a
  cases a; simp

@[simp] theorem zero_add_fv (a : FieldValue) : (0 : FieldValue) + a = a := by
  show FieldValue.mk ((0 : Vec3) + a.E) ((0 : Vec3) + a.B) = a
  cases a; simp

end FieldValue

/-- Abstract field source (the virtual `FieldSource` interface): an enabled
flag, an inside test, and an evaluation function. -/
structure FieldSource where
  enabled : Bool
  isInside : Vec3 → Bool
  evalAt : Vec3 → ℝ → FieldValue

/-- `EMFieldManager`: an ordered collection of (possibly null) field-source
pointers; `addSource` rejects null, `evaluate` skips null entries. -/
structure EMFieldManager where
  sources : List (Option FieldSource)

namespace EMFieldManager

/-- `EMFieldManager::addSource`: `if (source) m_sources.push_back(...)`. -/
def addSource (mgr : EMFieldManager) (source : Option FieldSource) : EMFieldManager :=
  if source.isSome then { sources := mgr.sources ++ [source] } else mgr

/-- `EMFieldManager::evaluate`: sum the contributions of the non-null stored
sources that are enabled and whose inside test passes. -/
def evaluate (mgr : EMFieldManager) (position : Vec3) (time : ℝ) : FieldValue :=
  mgr.sources.foldl
    (fun total src =>
      match src with
      | some s => if s.enabled && s.isInside position then total + s.evalAt position time else total
      | none => total)
    0

end EMFieldManager

end physics

end pas

namespace pas

open physics

theorem Vec3.add_assoc_vec (a b c : Vec3) : a + b + c = a + (b + c) := by
  ext <;> simp <;> ring

theorem FieldValue.add_assoc_fv (a b c : FieldValue) : a + b + c = a + (b + c) := by
  show FieldValue.mk (a.E + b.E + c.E) (a.B + b.B + c.B) =
    FieldValue.mk (a.E + (b.E + c.E)) (a.B + (b.B + c.B))
  rw [Vec3.add_assoc_vec, Vec3.add_assoc_vec]

/-- The sum of per-source field contributions at `(pos, t)` over a source
list, written as the claim states it: filter out null entries, keep the
enabled sources whose inside test passes, sum their evaluations. -/
def sourceSum (l : List (Option FieldSource)) (pos : Vec3) (t : ℝ) : FieldValue :=
  (((l.filterMap id).filter (fun s => s.enabled && s.isInside pos)).map
    (fun s => s.evalAt pos t)).foldr (· + ·) 0

theorem evaluate_foldl_general (pos : Vec3) (t : ℝ) (l : List (Option FieldSource))
    (init : FieldValue) :
    l.foldl
      (fun total src =>
        match src with
        | some s =>
            if s.enabled && s.isInside pos then total + s.evalAt pos t else total
        | none => total)
      init = init + sourceSum l pos t := by
  induction l generalizing init with
  | nil => simp [sourceSum]
  | cons hd tl ih =>
    cases hd with
    | none => simp only [List.foldl_cons, sourceSum, List.filterMap_cons]; exact ih init
    | some s =>
      by_cases h : s.enabled && s.isInside pos
      · simp only [List.foldl_cons, h, if_true]
        rw [ih (init + s.evalAt pos t), FieldValue.add_assoc_fv]
        congr 1
        simp [sourceSum, h]
      · simp only [List.foldl_cons, if_neg h]
        rw [ih init]
        congr 1
        simp [sourceSum, h]

/-- Claim C6: for every position and time, `EMFieldManager::evaluate` returns
exactly the component-wise sum of `source.evaluate(position, time)` over the
stored sources that are enabled and whose `inside(position)` test is true,
with identity `(0,0)` when there are none; and `addSource` with a null
pointer leaves the source list unchanged. -/
theorem claim_C6_field_superposition (mgr : physics.EMFieldManager) (pos : Vec3) (t : ℝ) :
    mgr.evaluate pos t = sourceSum mgr.sources pos t ∧
    (physics.EMFieldManager.mk []).evaluate pos t = 0 ∧
    mgr.addSource none = mgr := by
  refine ⟨?_, rfl, ?_⟩
  · have := evaluate_foldl_general pos t mgr.sources 0
    simpa [physics.EMFieldManager.evaluate] using this
  · simp [physics.EMFieldManager.addSource]

end pas

namespace pas.physics

open constants

/-- `BorisIntegrator::step` from `Integrator.cpp`: half electric kick,
magnetic rotation, half electric kick, then position update with the
velocity cached by `setMomentum`. -/
def BorisIntegrator.step (fm : EMFieldManager) (time dt : ℝ) (particle : Particle) :
    Particle :=
  if particle.active = false then particle else
    let pos := particle.position
    let mom := particle.momentum
    let q := particle.charge
    let m := particle.mass
    let field := fm.evaluate pos time
    let momMinus := mom + (dt * 0.5) • (q • field.E)
    let pMag := momMinus.length
    let gamma := Real.sqrt (1 + pMag / (m * c) * (pMag / (m * c)))
    let t := ((q * dt) • field.B).divs (2 * gamma * m)
    let tMag2 := Vec3.dot t t
    let s := ((2 : ℝ) • t).divs (1 + tMag2)
    let uMinus := momMinus.divs (gamma * m)
    let uPrime := uMinus + Vec3.cross uMinus t
    let uPlus := uMinus + Vec3.cross uPrime s
    let momPlus := (gamma * m) • uPlus
    let newMom := momPlus + (dt * 0.5) • (q • field.E)
    let p1 := particle.setMomentum newMom
    p1.setPosition (pos + dt • p1.getVelocity)

theorem one_le_sqrt_one_add_mul_self (a : ℝ) : 1 ≤ Real.sqrt (1 + a * a) := by
  have h : Real.sqrt 1 ≤ Real.sqrt (1 + a * a) :=
    Real.sqrt_le_sqrt (by nlinarith [sq_nonneg a])
  simpa using h

theorem Particle.updateDerived_gamma (p : Particle) (hm : 0 < p.mass) :
    p.updateDerivedQuantities.gamma =
      Real.sqrt (1 + p.getMomentumMagnitude / (p.mass * c) *
        (p.getMomentumMagnitude / (p.mass * c))) := by
  unfold Particle.updateDerivedQuantities
  split
  · rfl
  · rename_i h
    push_neg at h
    have h0 : p.getMomentumMagnitude = 0 := by
      by_contra hne
      have hpos : p.getMomentumMagnitude > 0 :=
        lt_of_le_of_ne (Vec3.length_nonneg _) (Ne.symm hne)
      exact absurd hm (not_lt.mpr (h hpos))
    simp [h0]

theorem Particle.updateDerived_momentum (p : Particle) :
    p.updateDerivedQuantities.momentum = p.momentum := by
  unfold Particle.updateDerivedQuantities; split <;> rfl

theorem Particle.updateDerived_position (p : Particle) :
    p.updateDerivedQuantities.position = p.position := by
  unfold Particle.updateDerivedQuantities; split <;> rfl

theorem Particle.updateDerived_mass (p : Particle) :
    p.updateDerivedQuantities.mass = p.mass := by
  unfold Particle.updateDerivedQuantities; split <;> rfl

theorem Particle.updateDerived_restEnergy (p : Particle) :
    p.updateDerivedQuantities.restEnergy = p.restEnergy := by
  unfold Particle.updateDerivedQuantities; split <;> rfl

theorem Particle.updateDerived_active (p : Particle) :
    p.updateDerivedQuantities.active = p.active := by
  unfold Particle.updateDerivedQuantities; split <;> rfl

theorem Particle.setMomentum_momentum (p : Particle) (nm : Vec3) :
    (p.setMomentum nm).momentum = nm := by
  unfold Particle.setMomentum; rw [Particle.updateDerived_momentum]

theorem Particle.setMomentum_gamma (p : Particle) (nm : Vec3) (hm : 0 < p.mass) :
    (p.setMomentum nm).gamma =
      Real.sqrt (1 + nm.length / (p.mass * c) * (nm.length / (p.mass * c))) := by
  unfold Particle.setMomentum
  rw [Particle.updateDerived_gamma _ (by simpa using hm)]
  rfl

theorem Particle.getVelocity_setMomentum (p : Particle) (nm : Vec3) (hm : 0 < p.mass) :
    (p.setMomentum nm).getVelocity =
      nm.divs (Real.sqrt (1 + nm.length / (p.mass * c) * (nm.length / (p.mass * c)))
        * p.mass) := by
  have hg := Particle.setMomentum_gamma p nm hm
  have hmass : (p.setMomentum nm).mass = p.mass := by
    unfold Particle.setMomentum; rw [Particle.updateDerived_mass]
  have hgpos : 0 < (p.setMomentum nm).gamma := by
    rw [hg]; exact lt_of_lt_of_le one_pos (one_le_sqrt_one_add_mul_self _)
  unfold Particle.getVelocity
  rw [if_pos ⟨hgpos, by rw [hmass]; exact hm⟩, Particle.setMomentum_momentum, hg, hmass]

/-- The six-step Boris scheme exactly as the specification states it, with
`(E, B)` evaluated by the field manager at the particle's position and time:
returns the pair `(p_new, x_new)` where `p_new = p⁺ + q·E·dt/2` and
`x_new = x + v_new·dt` with `v_new = p_new/(γ_new·m)` derived from `p_new`. -/
def borisSchemeSpec (fm : EMFieldManager) (time dt : ℝ) (particle : Particle) :
    Vec3 × Vec3 :=
  let x := particle.position
  let p := particle.momentum
  let q := particle.charge
  let m := particle.mass
  let field := fm.evaluate x time
  let pMinus := p + (dt * 0.5) • (q • field.E)
  let gamma := Real.sqrt (1 + pMinus.length / (m * c) * (pMinus.length / (m * c)))
  let t := ((q * dt) • field.B).divs (2 * gamma * m)
  let s := ((2 : ℝ) • t).divs (1 + Vec3.dot t t)
  let uMinus := pMinus.divs (gamma * m)
  let uPrime := uMinus + Vec3.cross uMinus t
  let uPlus := uMinus + Vec3.cross uPrime s
  let pPlus := (gamma * m) • uPlus
  let pNew := pPlus + (dt * 0.5) • (q • field.E)
  let gammaNew := Real.sqrt (1 + pNew.length / (m * c) * (pNew.length / (m * c)))
  (pNew, x + dt • pNew.divs (gammaNew * m))

/-- Claim C1: on an active particle (with physical, positive mass)
`BorisIntegrator::step` performs exactly the six-step Boris scheme of the
specification — the new momentum and new position are those of
`borisSchemeSpec`, with the fields taken from the field manager at the
particle's current position and time — and an inactive particle is left
completely unchanged. -/
theorem claim_C1_boris_step (fm : EMFieldManager) (time dt : ℝ) (p : Particle) :
    (p.active = false → BorisIntegrator.step fm time dt p = p) ∧
    (p.active = true → 0 < p.mass →
      (BorisIntegrator.step fm time dt p).momentum = (borisSchemeSpec fm time dt p).1 ∧
      (BorisIntegrator.step fm time dt p).position = (borisSchemeSpec fm time dt p).2) := by
  constructor
  · intro h
    unfold BorisIntegrator.step
    rw [if_pos h]
  · intro hact hm
    unfold BorisIntegrator.step borisSchemeSpec
    rw [if_neg (by simp [hact])]
    constructor
    · simp only [Particle.setPosition, Particle.setMomentum_momentum]
    · simp only [Particle.setPosition, Particle.getVelocity_setMomentum _ _ hm]

/-- Witness for claim C1: a concrete active unit-mass particle in an empty
field manager satisfies the hypotheses of `claim_C1_boris_step`. -/
theorem claim_C1_boris_step_witness :
    (Particle.mk 0 ⟨1, 0, 0⟩ 1 1 c2 1 0 true).active = true ∧
    (0 : ℝ) < (Particle.mk 0 ⟨1, 0, 0⟩ 1 1 c2 1 0 true).mass ∧
    ((BorisIntegrator.step ⟨[]⟩ 0 1 (Particle.mk 0 ⟨1, 0, 0⟩ 1 1 c2 1 0 true)).momentum
      = (borisSchemeSpec ⟨[]⟩ 0 1 (Particle.mk 0 ⟨1, 0, 0⟩ 1 1 c2 1 0 true)).1 ∧
     (BorisIntegrator.step ⟨[]⟩ 0 1 (Particle.mk 0 ⟨1, 0, 0⟩ 1 1 c2 1 0 true)).position
      = (borisSchemeSpec ⟨[]⟩ 0 1 (Particle.mk 0 ⟨1, 0, 0⟩ 1 1 c2 1 0 true)).2) :=
  ⟨rfl, by norm_num,
    (claim_C1_boris_step ⟨[]⟩ 0 1 (Particle.mk 0 ⟨1, 0, 0⟩ 1 1 c2 1 0 true)).2
      rfl (by norm_num)⟩

theorem boris_rotation_preserves_dot (u t : Vec3) :
    Vec3.dot
      (u + Vec3.cross (u + Vec3.cross u t) (((2 : ℝ) • t).divs (1 + Vec3.dot t t)))
      (u + Vec3.cross (u + Vec3.cross u t) (((2 : ℝ) • t).divs (1 + Vec3.dot t t)))
      = Vec3.dot u u := by
  have hT : (0 : ℝ) ≤ Vec3.dot t t := Vec3.dot_nonneg t
  have h1 : (1 : ℝ) + Vec3.dot t t ≠ 0 := by positivity
  simp only [Vec3.dot, Vec3.cross, Vec3.divs, Vec3.add_x, Vec3.add_y, Vec3.add_z,
    Vec3.smul_x, Vec3.smul_y, Vec3.smul_z] at h1 ⊢
  field_simp
  ring

theorem Particle.setPosition_momentum (p : Particle) (x : Vec3) :
    (p.setPosition x).momentum = p.momentum := rfl

theorem Particle.setPosition_gamma (p : Particle) (x : Vec3) :
    (p.setPosition x).gamma = p.gamma := rfl

theorem Particle.setPosition_restEnergy (p : Particle) (x : Vec3) :
    (p.setPosition x).restEnergy = p.restEnergy := rfl

theorem Particle.setMomentum_restEnergy (p : Particle) (nm : Vec3) :
    (p.setMomentum nm).restEnergy = p.restEnergy := by
  unfold Particle.setMomentum; rw [Particle.updateDerived_restEnergy]

/-- The new momentum computed by `BorisIntegrator::step` on an active
particle (the value passed to `setMomentum`). -/
def borisNewMom (fm : EMFieldManager) (time dt : ℝ) (particle : Particle) : Vec3 :=
  let pos := particle.position
  let mom := particle.momentum
  let q := particle.charge
  let m := particle.mass
  let field := fm.evaluate pos time
  let momMinus := mom + (dt * 0.5) • (q • field.E)
  let pMag := momMinus.length
  let gamma := Real.sqrt (1 + pMag / (m * c) * (pMag / (m * c)))
  let t := ((q * dt) • field.B).divs (2 * gamma * m)
  let tMag2 := Vec3.dot t t
  let s := ((2 : ℝ) • t).divs (1 + tMag2)
  let uMinus := momMinus.divs (gamma * m)
  let uPrime := uMinus + Vec3.cross uMinus t
  let uPlus := uMinus + Vec3.cross uPrime s
  (gamma * m) • uPlus + (dt * 0.5) • (q • field.E)

theorem BorisIntegrator.step_active_eq (fm : EMFieldManager) (time dt : ℝ)
    (p : Particle) (hact : ¬ p.active = false) :
    BorisIntegrator.step fm time dt p =
      Particle.setPosition (p.setMomentum (borisNewMom fm time dt p))
        (p.position + dt • (p.setMomentum (borisNewMom fm time dt p)).getVelocity) := by
  unfold BorisIntegrator.step borisNewMom
  rw [if_neg hact]

theorem borisNewMom_pure_magnetic (fm : EMFieldManager) (time dt : ℝ) (p : Particle)
    (hm : 0 < p.mass) (hE : (fm.evaluate p.position time).E = 0) :
    (borisNewMom fm time dt p).length = p.momentum.length := by
  unfold borisNewMom
  simp only [hE, Vec3.smul_zero_vec, Vec3.add_zero_vec]
  set gamma := Real.sqrt (1 + p.momentum.length / (p.mass * c) *
    (p.momentum.length / (p.mass * c))) with hgdef
  have hg1 : (1 : ℝ) ≤ gamma := one_le_sqrt_one_add_mul_self _
  have hgm : gamma * p.mass ≠ 0 := by positivity
  unfold Vec3.length
  congr 1
  rw [Vec3.dot_smul_smul, boris_rotation_preserves_dot]
  have hcancel := Vec3.smul_divs_cancel (gamma * p.mass) hgm p.momentum
  calc gamma * p.mass * (gamma * p.mass) *
        Vec3.dot (p.momentum.divs (gamma * p.mass)) (p.momentum.divs (gamma * p.mass))
      = Vec3.dot ((gamma * p.mass) • p.momentum.divs (gamma * p.mass))
          ((gamma * p.mass) • p.momentum.divs (gamma * p.mass)) := by
        rw [Vec3.dot_smul_smul]
    _ = Vec3.dot p.momentum p.momentum := by rw [hcancel]

/-- Claim C2: if the field evaluated at the particle's position and time has
`E = 0` (a pure magnetic field), one `BorisIntegrator::step` leaves the
momentum magnitude unchanged in exact real arithmetic, and hence (whenever
the particle's cached `γ` is the derived one) its kinetic energy too.  The
particle's mass is positive, as the data model requires. -/
theorem claim_C2_boris_magnetic_conservation (fm : EMFieldManager) (time dt : ℝ)
    (p : Particle) (hm : 0 < p.mass) (hE : (fm.evaluate p.position time).E = 0) :
    (BorisIntegrator.step fm time dt p).momentum.length = p.momentum.length ∧
    (p.gamma = p.updateDerivedQuantities.gamma →
      (BorisIntegrator.step fm time dt p).getKineticEnergy = p.getKineticEnergy) := by
  by_cases hact : p.active = false
  · unfold BorisIntegrator.step
    rw [if_pos hact]
    exact ⟨rfl, fun _ => rfl⟩
  · rw [BorisIntegrator.step_active_eq fm time dt p hact]
    have hlen : (borisNewMom fm time dt p).length = p.momentum.length :=
      borisNewMom_pure_magnetic fm time dt p hm hE
    constructor
    · rw [Particle.setPosition_momentum, Particle.setMomentum_momentum]
      exact hlen
    · intro hcons
      unfold Particle.getKineticEnergy
      rw [Particle.setPosition_gamma, Particle.setPosition_restEnergy,
        Particle.setMomentum_restEnergy, Particle.setMomentum_gamma _ _ hm, hlen, hcons,
        Particle.updateDerived_gamma _ hm]
      rfl

/-- Witness for claim C2: a concrete at-rest unit-mass particle in an empty
field manager satisfies all hypotheses of
`claim_C2_boris_magnetic_conservation`. -/
theorem claim_C2_boris_magnetic_conservation_witness :
    ((0 : ℝ) < (Particle.mk 0 0 1 1 c2 1 0 true).mass ∧
      ((EMFieldManager.mk []).evaluate (Particle.mk 0 0 1 1 c2 1 0 true).position 0).E = 0) ∧
    ((BorisIntegrator.step ⟨[]⟩ 0 1 (Particle.mk 0 0 1 1 c2 1 0 true)).momentum.length
        = (Particle.mk 0 0 1 1 c2 1 0 true).momentum.length ∧
      ((Particle.mk 0 0 1 1 c2 1 0 true).gamma
          = (Particle.mk 0 0 1 1 c2 1 0 true).updateDerivedQuantities.gamma →
        (BorisIntegrator.step ⟨[]⟩ 0 1 (Particle.mk 0 0 1 1 c2 1 0 true)).getKineticEnergy
          = (Particle.mk 0 0 1 1 c2 1 0 true).getKineticEnergy)) :=
  ⟨⟨by norm_num, rfl⟩,
    claim_C2_boris_magnetic_conservation ⟨[]⟩ 0 1 (Particle.mk 0 0 1 1 c2 1 0 true)
      (by norm_num) rfl⟩

theorem Vec3.length_smul (s : ℝ) (v : Vec3) : (s • v).length = |s| * v.length := by
  unfold Vec3.length
  rw [Vec3.dot_smul_smul, show s * s = s ^ 2 by ring, Real.sqrt_mul (sq_nonneg s),
    Real.sqrt_sq_eq_abs]

theorem Vec3.divs_smul_cancel (s : ℝ) (hs : s ≠ 0) (v : Vec3) : (s • v).divs s = v := by
  ext <;> simp <;> field_simp

theorem betaFromGamma_lt_one (g : ℝ) (hg : 1 ≤ g) :
    constants.relativistic.betaFromGamma g < 1 := by
  unfold constants.relativistic.betaFromGamma
  have hgpos : (0 : ℝ) < g := lt_of_lt_of_le one_pos hg
  have harg : 1 - 1 / (g * g) < 1 ^ 2 := by
    have : 0 < 1 / (g * g) := by positivity
    nlinarith
  exact (Real.sqrt_lt' one_pos).mpr harg

theorem betaFromGamma_nonneg (g : ℝ) : 0 ≤ constants.relativistic.betaFromGamma g :=
  Real.sqrt_nonneg _

theorem one_le_gammaFromBeta (b : ℝ) (hb0 : 0 ≤ b) (hb1 : b < 1) :
    1 ≤ constants.relativistic.gammaFromBeta b := by
  unfold constants.relativistic.gammaFromBeta
  have harg0 : 0 < 1 - b * b := by nlinarith
  have harg1 : 1 - b * b ≤ 1 := by nlinarith
  have hs0 : 0 < Real.sqrt (1 - b * b) := Real.sqrt_pos.mpr harg0
  have hs1 : Real.sqrt (1 - b * b) ≤ 1 := by
    have := Real.sqrt_le_sqrt harg1
    simpa using this
  exact one_le_one_div hs0 hs1

theorem Particle.updateDerived_invariant (p : Particle) :
    1 ≤ p.updateDerivedQuantities.gamma ∧ p.updateDerivedQuantities.beta < 1 := by
  unfold Particle.updateDerivedQuantities
  split
  · constructor
    · exact one_le_sqrt_one_add_mul_self _
    · exact betaFromGamma_lt_one _ (one_le_sqrt_one_add_mul_self _)
  · exact ⟨le_refl 1, one_pos⟩

/-- Claim C7 (amended): after `setMomentum`, `setPx`, `setPy`, `setPz` and
`setVelocity` the cached invariants satisfy `γ ≥ 1` and `β < 1`
unconditionally; after `setKineticEnergy` they do whenever the requested
kinetic energy is nonnegative; and `setVelocity` with a requested speed
`|v| ≥ c` stores the velocity clamped to magnitude `0.999999·c` (for a
positive-mass particle the stored velocity is the clamped vector). -/
theorem claim_C7_subluminal_amended (p : Particle) (m v d : Vec3) (px py pz ke : ℝ) :
    (1 ≤ (p.setMomentum m).gamma ∧ (p.setMomentum m).beta < 1) ∧
    (1 ≤ (p.setPx px).gamma ∧ (p.setPx px).beta < 1) ∧
    (1 ≤ (p.setPy py).gamma ∧ (p.setPy py).beta < 1) ∧
    (1 ≤ (p.setPz pz).gamma ∧ (p.setPz pz).beta < 1) ∧
    (1 ≤ (p.setVelocity v).gamma ∧ (p.setVelocity v).beta < 1) ∧
    (0 ≤ ke → p.restEnergy > 0 →
      1 ≤ (p.setKineticEnergy ke d).gamma ∧ (p.setKineticEnergy ke d).beta < 1) ∧
    (c ≤ v.length → 0 < p.mass →
      ((0.999999 * c / v.length) • v).length = 0.999999 * c ∧
      (p.setVelocity v).getVelocity = (0.999999 * c / v.length) • v) := by
  have hvlen : c ≤ v.length → ((0.999999 * c / v.length) • v).length = 0.999999 * c := by
    intro hc
    have hvpos : 0 < v.length := lt_of_lt_of_le constants.c_pos hc
    have hscale : 0 < 0.999999 * c / v.length :=
      div_pos (by nlinarith [constants.c_pos]) hvpos
    rw [Vec3.length_smul, abs_of_pos hscale]
    field_simp
  refine ⟨Particle.updateDerived_invariant _, Particle.updateDerived_invariant _,
    Particle.updateDerived_invariant _, Particle.updateDerived_invariant _,
    ?_, ?_, ?_⟩
  · unfold Particle.setVelocity
    split
    · rename_i hc
      have hlen := hvlen hc
      have hb0 : 0 ≤ (((0.999999 * c / v.length) • v).length) / c := by
        have := Vec3.length_nonneg ((0.999999 * c / v.length) • v)
        have := constants.c_pos
        positivity
      have hb1 : (((0.999999 * c / v.length) • v).length) / c < 1 := by
        rw [hlen]
        rw [div_lt_one constants.c_pos]
        nlinarith [constants.c_pos]
      exact ⟨one_le_gammaFromBeta _ hb0 hb1, hb1⟩
    · split
      · rename_i hnc hpos
        push_neg at hnc
        have hb0 : 0 ≤ v.length / c := by
          have := Vec3.length_nonneg v
          have := constants.c_pos
          positivity
        have hb1 : v.length / c < 1 := (div_lt_one constants.c_pos).mpr hnc
        exact ⟨one_le_gammaFromBeta _ hb0 hb1, hb1⟩
      · exact ⟨le_refl 1, one_pos⟩
  · intro hke hre
    unfold Particle.setKineticEnergy
    have hg : 1 ≤ 1 + ke / p.restEnergy := by
      have : 0 ≤ ke / p.restEnergy := div_nonneg hke hre.le
      linarith
    exact ⟨hg, betaFromGamma_lt_one _ hg⟩
  · intro hc hm
    refine ⟨hvlen hc, ?_⟩
    have hvpos : 0 < v.length := lt_of_lt_of_le constants.c_pos hc
    have hb0 : 0 ≤ (((0.999999 * c / v.length) • v).length) / c := by
      have := Vec3.length_nonneg ((0.999999 * c / v.length) • v)
      have := constants.c_pos
      positivity
    have hb1 : (((0.999999 * c / v.length) • v).length) / c < 1 := by
      rw [hvlen hc, div_lt_one constants.c_pos]
      nlinarith [constants.c_pos]
    have hg1 : 1 ≤ constants.relativistic.gammaFromBeta
        ((((0.999999 * c / v.length) • v).length) / c) := one_le_gammaFromBeta _ hb0 hb1
    unfold Particle.setVelocity Particle.getVelocity
    rw [if_pos (not_lt.mp (by simpa using hc))]
    simp only
    rw [if_pos ⟨lt_of_lt_of_le one_pos hg1, hm⟩]
    have hgm : constants.relativistic.gammaFromBeta
        ((((0.999999 * c / v.length) • v).length) / c) * p.mass ≠ 0 := by positivity
    exact Vec3.divs_smul_cancel _ hgm _

/-- Witness for claim C7 (amended): all hypotheses hold at a concrete
positive-mass particle and a concrete superluminal requested velocity. -/
theorem claim_C7_subluminal_amended_witness :
    ((0 : ℝ) ≤ 1 ∧ (Particle.make 1 1 0 0).restEnergy > 0 ∧
      c ≤ (Vec3.mk c 0 0).length ∧ 0 < (Particle.make 1 1 0 0).mass) ∧
    (1 ≤ ((Particle.make 1 1 0 0).setVelocity ⟨c, 0, 0⟩).gamma ∧
      ((Particle.make 1 1 0 0).setVelocity ⟨c, 0, 0⟩).beta < 1) ∧
    ((0.999999 * c / (Vec3.mk c 0 0).length) • (Vec3.mk c 0 0)).length = 0.999999 * c := by
  have hre : (Particle.make 1 1 0 0).restEnergy > 0 := by
    unfold Particle.make
    rw [Particle.updateDerived_restEnergy]
    simp [constants.c2, constants.c]
    norm_num
  have hlen : (Vec3.mk c 0 0).length = c := by
    unfold Vec3.length Vec3.dot
    simp
    exact Real.sqrt_mul_self constants.c_pos.le
  have hmass : (0 : ℝ) < (Particle.make 1 1 0 0).mass := by
    unfold Particle.make
    rw [Particle.updateDerived_mass]
    norm_num
  have h := claim_C7_subluminal_amended (Particle.make 1 1 0 0) 0 ⟨c, 0, 0⟩ 0 0 0 0 1
  exact ⟨⟨by norm_num, hre, by rw [hlen], hmass⟩,
    h.2.2.2.2.1,
    (h.2.2.2.2.2.2 (by rw [hlen]) hmass).1⟩

/-- Counterexample for claim C7 as stated: `setKineticEnergy` with a negative
kinetic energy (here `-c²/2` J on a 1 kg particle, rest energy `c²`) stores
`γ = 1/2 < 1`, so the invariant `γ ≥ 1` fails after that mutator. -/
theorem claim_C7_counterexample :
    ¬ (1 ≤ ((Particle.make 1 1 0 0).setKineticEnergy (-(c2 / 2)) 0).gamma) := by
  have hre : (Particle.make 1 1 0 0).restEnergy = c2 := by
    unfold Particle.make
    rw [Particle.updateDerived_restEnergy]
    norm_num
  have hg : ((Particle.make 1 1 0 0).setKineticEnergy (-(c2 / 2)) 0).gamma
      = 1 + (-(c2 / 2)) / c2 := by
    unfold Particle.setKineticEnergy
    simp only [hre]
  rw [hg]
  have hc2 : (0 : ℝ) < c2 := mul_pos constants.c_pos constants.c_pos
  have : (-(c2 / 2)) / c2 = -(1 / 2) := by
    rw [div_eq_iff (ne_of_gt hc2)]
    ring
  rw [this]
  norm_num

end pas.physics

namespace pas.accelerator

open pas.physics

/-- `ComponentType` from `Component.hpp`. -/
inductive ComponentType where
  | BeamPipe
  | Dipole
  | Quadrupole
  | Sextupole
  | RFCavity
  | Detector
  | Custom
deriving DecidableEq

/-- `ApertureShape` from `Component.hpp`. -/
inductive ApertureShape where
  | Circular
  | Elliptical
  | Rectangular
deriving DecidableEq

/-- `Aperture` from `Component.hpp`. -/
structure Aperture where
  shape : ApertureShape
  radiusX : ℝ
  radiusY : ℝ

/-- The default-constructed `Aperture`: circular with 0.05 m radii. -/
def Aperture.default : Aperture := ⟨ApertureShape.Circular, 0.05, 0.05⟩

/-- `Aperture::isInside` from `Component.cpp`. -/
def Aperture.isInside (a : Aperture) (x y : ℝ) : Prop :=
  match a.shape with
  | ApertureShape.Circular => Real.sqrt (x * x + y * y) ≤ a.radiusX
  | ApertureShape.Elliptical =>
      x / a.radiusX * (x / a.radiusX) + y / a.radiusY * (y / a.radiusY) ≤ 1
  | ApertureShape.Rectangular => |x| ≤ a.radiusX ∧ |y| ≤ a.radiusY

/-- Unit-quaternion orientation, modelling `glm::dquat` (stored as w,x,y,z). -/
structure Quat where
  w : ℝ
  x : ℝ
  y : ℝ
  z : ℝ

/-- The identity quaternion `(1, 0, 0, 0)`. -/
def Quat.one : Quat := ⟨1, 0, 0, 0⟩

/-- `glm::inverse` on quaternions: conjugate divided by the squared norm. -/
def Quat.inverse (q : Quat) : Quat :=
  let d := q.w * q.w + q.x * q.x + q.y * q.y + q.z * q.z
  ⟨q.w / d, -q.x / d, -q.y / d, -q.z / d⟩

/-- `glm` quaternion-vector product `q * v`:
`v + 2 (w (qv × v) + qv × (qv × v))` with `qv = (q.x, q.y, q.z)`. -/
def Quat.rotate (q : Quat) (v : Vec3) : Vec3 :=
  let qv : Vec3 := ⟨q.x, q.y, q.z⟩
  let uv := Vec3.cross qv v
  let uuv := Vec3.cross qv uv
  v + (2 : ℝ) • (q.w • uv + uuv)

/-- The per-variant payload of the `Component` subclasses. -/
inductive ComponentKind where
  | beamPipe
  | dipole (field : ℝ)
  | quadrupole (gradient : ℝ)
  | rfCavity (voltage frequency phase : ℝ)
  | detector
deriving DecidableEq

/-- Lattice component, from `Component.hpp` (common state of the `Component`
base class, plus the subclass payload as `kind`). -/
structure Component where
  kind : ComponentKind
  name : String
  length : ℝ
  aperture : Aperture
  sPosition : ℝ
  position : Vec3
  rotation : Quat

namespace Component

/-- `Component::getType` (the virtual type tag, from the subclass). -/
def getType (comp : Component) : ComponentType :=
  match comp.kind with
  | ComponentKind.beamPipe => ComponentType.BeamPipe
  | ComponentKind.dipole _ => ComponentType.Dipole
  | ComponentKind.quadrupole _ => ComponentType.Quadrupole
  | ComponentKind.rfCavity _ _ _ => ComponentType.RFCavity
  | ComponentKind.detector => ComponentType.Detector

/-- `Component::toLocal`: translate then rotate by the inverse orientation. -/
def toLocal (comp : Component) (globalPos : Vec3) : Vec3 :=
  comp.rotation.inverse.rotate (globalPos - comp.position)

/-- `Component::isInsideAperture`: the local z must lie in `[0, L]` and the
transverse local coordinates must pass the 2-D aperture test. -/
def isInsideAperture (comp : Component) (globalPos : Vec3) : Prop :=
  ¬((comp.toLocal globalPos).z < 0 ∨ (comp.toLocal globalPos).z > comp.length) ∧
    comp.aperture.isInside (comp.toLocal globalPos).x (comp.toLocal globalPos).y

/-- `Component::containsS`: `s ∈ [sPosition, sPosition + length)`. -/
def containsS (comp : Component) (s : ℝ) : Prop :=
  s ≥ comp.sPosition ∧ s < comp.sPosition + comp.length

end Component

/-- The `Quadrupole` constructor: a quadrupole component with the given name,
length, gradient and aperture, at the default position/orientation. -/
def mkQuadrupole (name : String) (length gradient : ℝ) (aperture : Aperture) : Component :=
  ⟨ComponentKind.quadrupole gradient, name, length, aperture, 0, 0, Quat.one⟩

/-- The `BeamPipe` constructor. -/
def mkBeamPipe (name : String) (length : ℝ) (aperture : Aperture) : Component :=
  ⟨ComponentKind.beamPipe, name, length, aperture, 0, 0, Quat.one⟩

/-- `LatticeType` from `Accelerator.hpp`. -/
inductive LatticeType where
  | Linear
  | Circular
deriving DecidableEq

/-- The `Accelerator` (lattice container) state, from `Accelerator.hpp`. -/
structure Accelerator where
  components : List Component
  latticeType : LatticeType
  totalLength : ℝ
  driftCounter : ℕ

namespace Accelerator

/-- The default-constructed `Accelerator`: empty linear lattice. -/
def empty : Accelerator := ⟨[], LatticeType.Linear, 0, 0⟩

/-- `Accelerator::addComponent` (the null-pointer guard is dropped: every
call site in the embedded code passes a freshly constructed component). -/
def addComponent (acc : Accelerator) (comp : Component) : Accelerator :=
  { acc with components := acc.components ++ [comp] }

/-- `Accelerator::removeComponent(const std::string&)`: the erase/`remove_if`
idiom keeps, in order, exactly the components whose name differs. -/
def removeComponentByName (acc : Accelerator) (name : String) : Accelerator :=
  { acc with components := acc.components.filter (fun comp => !(comp.name == name)) }

/-- Truncation toward zero, as C++ integer conversion / `std::fmod` use. -/
def realTrunc (r : ℝ) : ℤ := if 0 ≤ r then ⌊r⌋ else ⌈r⌉

/-- `std::fmod x y = x - y * trunc(x / y)` (exact-real model). -/
def cppFmod (x y : ℝ) : ℝ := x - y * (realTrunc (x / y) : ℝ)

/-- The s-reduction performed at the top of `Accelerator::getComponentAtS`:
for a circular lattice of positive total length, `fmod` then wrap negatives. -/
def reduceS (acc : Accelerator) (s : ℝ) : ℝ :=
  if acc.latticeType = LatticeType.Circular ∧ acc.totalLength > 0 then
    if cppFmod s acc.totalLength < 0 then cppFmod s acc.totalLength + acc.totalLength
    else cppFmod s acc.totalLength
  else s

/-- The linear scan of `Accelerator::getComponentAtS`: first component whose
`containsS` holds. -/
def findContainingS : List Component → ℝ → Option Component
  | [], _ => none
  | comp :: rest, s =>
      if comp.containsS s then some comp else findContainingS rest s

/-- `Accelerator::getComponentAtS`. -/
def getComponentAtS (acc : Accelerator) (s : ℝ) : Option Component :=
  findContainingS acc.components (acc.reduceS s)

/-- `Accelerator::addDrift`: autogenerated name (with counter preincrement)
when the given name is empty, then append a `BeamPipe`. -/
def addDrift (acc : Accelerator) (length : ℝ) (name : String) : Accelerator :=
  if name = "" then
    (Accelerator.mk acc.components acc.latticeType acc.totalLength
        (acc.driftCounter + 1)).addComponent
      (mkBeamPipe ("Drift_" ++ toString (acc.driftCounter + 1)) length Aperture.default)
  else acc.addComponent (mkBeamPipe name length Aperture.default)

end Accelerator

/-- `FODOCellParams` from `Accelerator.hpp`. -/
structure FODOCellParams where
  cellLength : ℝ
  quadLength : ℝ
  quadGradient : ℝ
  driftLength : ℝ
  aperture : ℝ

namespace Accelerator

/-- `Accelerator::buildFODOCell`. -/
def buildFODOCell (acc : Accelerator) (params : FODOCellParams) (cellName : String) :
    Accelerator :=
  let driftLength :=
    if params.driftLength ≤ 0 then (params.cellLength - 2 * params.quadLength) / 2
    else params.driftLength
  let aperture : Aperture := ⟨ApertureShape.Circular, params.aperture, params.aperture⟩
  let acc1 := acc.addComponent
    (mkQuadrupole (cellName ++ "_QF") params.quadLength params.quadGradient aperture)
  let acc2 := acc1.addDrift driftLength (cellName ++ "_D1")
  let acc3 := acc2.addComponent
    (mkQuadrupole (cellName ++ "_QD") params.quadLength (-params.quadGradient) aperture)
  acc3.addDrift driftLength (cellName ++ "_D2")

/-- `Accelerator::buildFODOLattice`, iterating cells `i = start, start+1, …`
with names `FODO_(i+1)`. -/
def buildFODOLatticeFrom (acc : Accelerator) (params : FODOCellParams) (start : ℕ) :
    ℕ → Accelerator
  | 0 => acc
  | Nat.succ k =>
      ((acc.buildFODOCell params ("FODO_" ++ toString (start + 1))).buildFODOLatticeFrom
        params (start + 1)) k

/-- `Accelerator::buildFODOLattice` with `numCells` cells. -/
def buildFODOLattice (acc : Accelerator) (params : FODOCellParams) (numCells : ℕ) :
    Accelerator :=
  acc.buildFODOLatticeFrom params 0 numCells

/-- The loop body of `Accelerator::updateSPositions`: assign consecutive
s-positions starting at `s0` and return the final cursor (the total length). -/
def layoutComponents (s0 : ℝ) : List Component → List Component × ℝ
  | [] => ([], s0)
  | comp :: rest =>
      let laid := layoutComponents (s0 + comp.length) rest
      ({ comp with sPosition := s0 } :: laid.1, laid.2)

/-- `Accelerator::updateSPositions`. -/
def updateSPositions (acc : Accelerator) : Accelerator :=
  { acc with components := (layoutComponents 0 acc.components).1
             totalLength := (layoutComponents 0 acc.components).2 }

/-- `Accelerator::computeLattice` just recomputes s-positions. -/
def computeLattice (acc : Accelerator) : Accelerator := acc.updateSPositions

/-- `Accelerator::getQuadrupoleCount`. -/
def getQuadrupoleCount (acc : Accelerator) : ℕ :=
  acc.components.countP (fun comp => comp.getType == ComponentType.Quadrupole)

end Accelerator

/-- Claim C10: `Accelerator::removeComponent(name)` removes every component
whose name equals the given string (not only the first match), keeps the
others in order, and is a silent no-op when no component's name matches. -/
theorem claim_C10_removeComponent_by_name (acc : Accelerator) (nm : String) :
    (∀ comp : Component, comp ∈ (acc.removeComponentByName nm).components ↔
      comp ∈ acc.components ∧ comp.name ≠ nm) ∧
    (acc.removeComponentByName nm).components.Sublist acc.components ∧
    ((∀ comp ∈ acc.components, comp.name ≠ nm) → acc.removeComponentByName nm = acc) := by
  refine ⟨?_, List.filter_sublist _, ?_⟩
  · intro comp
    simp [Accelerator.removeComponentByName, List.mem_filter]
  · intro h
    unfold Accelerator.removeComponentByName
    rw [List.filter_eq_self.mpr (fun comp hmem => by simpa using h comp hmem)]

/-- Witness for claim C10: the no-match hypothesis holds on a concrete
one-component lattice whose component is named differently. -/
theorem claim_C10_removeComponent_by_name_witness :
    (∀ comp ∈ (Accelerator.mk [mkBeamPipe "A" 1 Aperture.default]
        LatticeType.Linear 0 0).components, comp.name ≠ "B") ∧
    (Accelerator.mk [mkBeamPipe "A" 1 Aperture.default]
        LatticeType.Linear 0 0).removeComponentByName "B" =
      Accelerator.mk [mkBeamPipe "A" 1 Aperture.default] LatticeType.Linear 0 0 := by
  have h : ∀ comp ∈ (Accelerator.mk [mkBeamPipe "A" 1 Aperture.default]
      LatticeType.Linear 0 0).components, comp.name ≠ "B" := by
    intro comp hmem
    simp only [List.mem_singleton] at hmem
    subst hmem
    simp [mkBeamPipe]
  exact ⟨h, (claim_C10_removeComponent_by_name
    (Accelerator.mk [mkBeamPipe "A" 1 Aperture.default] LatticeType.Linear 0 0) "B").2.2 h⟩

theorem string_append_ne_empty (s t : String) (ht : t.data ≠ []) : s ++ t ≠ "" := by
  intro h
  have hd2 : (s ++ t).data = ("" : String).data := congrArg String.data h
  rw [String.data_append] at hd2
  rcases List.append_eq_nil.mp hd2 with ⟨_, h2⟩
  exact ht h2

/-- The four components a FODO cell appends, as the specification lists
them: focusing quad `(ℓ_q, +G)`, drift `d`, defocusing quad `(ℓ_q, −G)`,
drift `d`, with `d = (C − 2ℓ_q)/2`. -/
def fodoCellComponents (params : FODOCellParams) (cellName : String) : List Component :=
  [mkQuadrupole (cellName ++ "_QF") params.quadLength params.quadGradient
      ⟨ApertureShape.Circular, params.aperture, params.aperture⟩,
   mkBeamPipe (cellName ++ "_D1") ((params.cellLength - 2 * params.quadLength) / 2)
      Aperture.default,
   mkQuadrupole (cellName ++ "_QD") params.quadLength (-params.quadGradient)
      ⟨ApertureShape.Circular, params.aperture, params.aperture⟩,
   mkBeamPipe (cellName ++ "_D2") ((params.cellLength - 2 * params.quadLength) / 2)
      Aperture.default]

theorem Accelerator.buildFODOCell_eq (acc : Accelerator) (params : FODOCellParams)
    (cellName : String) (hd : params.driftLength ≤ 0) :
    acc.buildFODOCell params cellName =
      Accelerator.mk (acc.components ++ fodoCellComponents params cellName)
        acc.latticeType acc.totalLength acc.driftCounter := by
  have h1 : cellName ++ "_D1" ≠ "" := string_append_ne_empty _ _ (by simp)
  have h2 : cellName ++ "_D2" ≠ "" := string_append_ne_empty _ _ (by simp)
  unfold Accelerator.buildFODOCell Accelerator.addDrift Accelerator.addComponent
  simp only [if_pos hd, if_neg h1, if_neg h2, fodoCellComponents]
  simp [List.append_assoc]

/-- The components appended by `buildFODOLatticeFrom params start n`. -/
def fodoCells (params : FODOCellParams) : ℕ → ℕ → List Component
  | _, 0 => []
  | start, Nat.succ k =>
      fodoCellComponents params ("FODO_" ++ toString (start + 1)) ++
        fodoCells params (start + 1) k

theorem Accelerator.buildFODOLatticeFrom_eq (params : FODOCellParams)
    (hd : params.driftLength ≤ 0) (n : ℕ) :
    ∀ (acc : Accelerator) (start : ℕ),
      acc.buildFODOLatticeFrom params start n =
        Accelerator.mk (acc.components ++ fodoCells params start n)
          acc.latticeType acc.totalLength acc.driftCounter := by
  induction n with
  | zero => intro acc start; simp [Accelerator.buildFODOLatticeFrom, fodoCells]
  | succ k ih =>
    intro acc start
    show (acc.buildFODOCell params ("FODO_" ++ toString (start + 1))).buildFODOLatticeFrom
        params (start + 1) k = _
    rw [Accelerator.buildFODOCell_eq acc params _ hd, ih]
    simp [fodoCells, List.append_assoc]

theorem fodoCellComponents_length (params : FODOCellParams) (cellName : String) :
    (fodoCellComponents params cellName).length = 4 := rfl

theorem fodoCells_length (params : FODOCellParams) (n : ℕ) :
    ∀ start : ℕ, (fodoCells params start n).length = 4 * n := by
  induction n with
  | zero => intro start; rfl
  | succ k ih =>
    intro start
    show (fodoCellComponents params _ ++ fodoCells params (start + 1) k).length = 4 * (k + 1)
    rw [List.length_append, fodoCellComponents_length, ih]
    ring

theorem fodoCellComponents_quadCount (params : FODOCellParams) (cellName : String) :
    (fodoCellComponents params cellName).countP
      (fun comp => comp.getType == ComponentType.Quadrupole) = 2 := by
  simp [fodoCellComponents, List.countP_cons, mkQuadrupole, mkBeamPipe, Component.getType]

theorem fodoCells_quadCount (params : FODOCellParams) (n : ℕ) :
    ∀ start : ℕ, (fodoCells params start n).countP
      (fun comp => comp.getType == ComponentType.Quadrupole) = 2 * n := by
  induction n with
  | zero => intro start; rfl
  | succ k ih =>
    intro start
    show (fodoCellComponents params _ ++ fodoCells params (start + 1) k).countP _ = 2 * (k + 1)
    rw [List.countP_append, fodoCellComponents_quadCount, ih]
    ring

theorem fodoCellComponents_lengthSum (params : FODOCellParams) (cellName : String) :
    ((fodoCellComponents params cellName).map Component.length).sum = params.cellLength := by
  simp [fodoCellComponents, mkQuadrupole, mkBeamPipe]
  ring

theorem fodoCells_lengthSum (params : FODOCellParams) (n : ℕ) :
    ∀ start : ℕ, ((fodoCells params start n).map Component.length).sum
      = n * params.cellLength := by
  induction n with
  | zero => intro start; simp [fodoCells]
  | succ k ih =>
    intro start
    show ((fodoCellComponents params _ ++ fodoCells params (start + 1) k).map
      Component.length).sum = _
    rw [List.map_append, List.sum_append, fodoCellComponents_lengthSum, ih]
    push_cast
    ring

theorem Accelerator.layoutComponents_total (l : List Component) :
    ∀ s0 : ℝ, (Accelerator.layoutComponents s0 l).2 = s0 + (l.map Component.length).sum := by
  induction l with
  | nil => intro s0; simp [Accelerator.layoutComponents]
  | cons hd tl ih =>
    intro s0
    show (Accelerator.layoutComponents (s0 + hd.length) tl).2 = _
    rw [ih]
    simp
    ring

/-- Claim C9: with a non-positive supplied drift length, `buildFODOCell`
appends exactly the four components (QF `+G`, drift, QD `−G`, drift) with
`d = (C − 2ℓ_q)/2`, so the cell's total length is the configured cell
length; `buildFODOLattice` with `n` cells adds `4n` components and `2n`
quadrupoles, and after `computeLattice` the total length is `n·C`. -/
theorem claim_C9_fodo_builder (acc : Accelerator) (params : FODOCellParams)
    (cellName : String) (n : ℕ) (hd : params.driftLength ≤ 0) :
    (acc.buildFODOCell params cellName).components
        = acc.components ++ fodoCellComponents params cellName ∧
    ((fodoCellComponents params cellName).map Component.length).sum = params.cellLength ∧
    (acc.buildFODOLattice params n).components.length = acc.components.length + 4 * n ∧
    (acc.buildFODOLattice params n).getQuadrupoleCount = acc.getQuadrupoleCount + 2 * n ∧
    (Accelerator.empty.buildFODOLattice params n).computeLattice.totalLength
        = n * params.cellLength := by
  refine ⟨?_, fodoCellComponents_lengthSum params cellName, ?_, ?_, ?_⟩
  · rw [Accelerator.buildFODOCell_eq acc params cellName hd]
  · unfold Accelerator.buildFODOLattice
    rw [Accelerator.buildFODOLatticeFrom_eq params hd n acc 0]
    simp [List.length_append, fodoCells_length]
  · unfold Accelerator.buildFODOLattice Accelerator.getQuadrupoleCount
    rw [Accelerator.buildFODOLatticeFrom_eq params hd n acc 0]
    simp [List.countP_append, fodoCells_quadCount]
  · unfold Accelerator.buildFODOLattice Accelerator.computeLattice
      Accelerator.updateSPositions
    rw [Accelerator.buildFODOLatticeFrom_eq params hd n Accelerator.empty 0]
    simp only [Accelerator.empty, List.nil_append]
    rw [Accelerator.layoutComponents_total, fodoCells_lengthSum]
    ring

/-- Witness for claim C9: the drift-length hypothesis holds for the default
FODO parameters (supplied drift length 0). -/
theorem claim_C9_fodo_builder_witness :
    (FODOCellParams.mk 10 0.5 50 0 0.05).driftLength ≤ 0 ∧
    (Accelerator.empty.buildFODOLattice (FODOCellParams.mk 10 0.5 50 0 0.05)
        3).computeLattice.totalLength = 3 * (FODOCellParams.mk 10 0.5 50 0 0.05).cellLength :=
  ⟨by norm_num,
    (claim_C9_fodo_builder Accelerator.empty (FODOCellParams.mk 10 0.5 50 0 0.05) "FODO_1" 3
      (by norm_num)).2.2.2.2⟩

/-- The component list carries consecutive s-positions starting at `s0`, as
`updateSPositions` assigns them. -/
def laidOutFrom : ℝ → List Component → Prop
  | _, [] => True
  | s0, comp :: rest => comp.sPosition = s0 ∧ laidOutFrom (s0 + comp.length) rest

theorem laidOutFrom_layout (l : List Component) :
    ∀ s0 : ℝ, laidOutFrom s0 (Accelerator.layoutComponents s0 l).1 := by
  induction l with
  | nil => intro s0; trivial
  | cons hd tl ih =>
    intro s0
    exact ⟨rfl, ih (s0 + hd.length)⟩

theorem containsS_bounds (l : List Component) :
    ∀ s0 : ℝ, laidOutFrom s0 l → (∀ comp ∈ l, 0 ≤ comp.length) →
      ∀ comp ∈ l, ∀ s : ℝ, comp.containsS s →
        s0 ≤ s ∧ s < s0 + (l.map Component.length).sum := by
  induction l with
  | nil => intro s0 _ _ comp hmem; exact absurd hmem (List.not_mem_nil comp)
  | cons hd tl ih =>
    intro s0 hlay hlen comp hmem s hcont
    have hsum : 0 ≤ (tl.map Component.length).sum := by
      apply List.sum_nonneg
      intro x hx
      rcases List.mem_map.mp hx with ⟨cx, hcx, rfl⟩
      exact hlen cx (List.mem_cons_of_mem hd hcx)
    rcases List.mem_cons.mp hmem with rfl | hmem'
    · rcases hcont with ⟨h1, h2⟩
      rw [hlay.1] at h1 h2
      refine ⟨h1, ?_⟩
      simp only [List.map_cons, List.sum_cons]
      linarith
    · have := ih (s0 + hd.length) hlay.2
        (fun cx hx => hlen cx (List.mem_cons_of_mem hd hx)) comp hmem' s hcont
      have hhd : 0 ≤ hd.length := hlen hd (List.mem_cons_self hd tl)
      simp only [List.map_cons, List.sum_cons]
      constructor
      · linarith [this.1]
      · linarith [this.2]

theorem findContainingS_eq_some (l : List Component) :
    ∀ s0 : ℝ, laidOutFrom s0 l → (∀ comp ∈ l, 0 ≤ comp.length) →
      ∀ (s : ℝ) (comp : Component),
        Accelerator.findContainingS l s = some comp ↔
          comp ∈ l ∧ comp.containsS s := by
  induction l with
  | nil =>
    intro s0 _ _ s comp
    simp [Accelerator.findContainingS]
  | cons hd tl ih =>
    intro s0 hlay hlen s comp
    have hlen' : ∀ cx ∈ tl, 0 ≤ cx.length :=
      fun cx hx => hlen cx (List.mem_cons_of_mem hd hx)
    unfold Accelerator.findContainingS
    by_cases hc : hd.containsS s
    · rw [if_pos hc]
      constructor
      · intro h
        rcases Option.some.injEq .. ▸ h with rfl
        exact ⟨List.mem_cons_self hd tl, hc⟩
      · intro ⟨hmem, hcont⟩
        rcases List.mem_cons.mp hmem with rfl | hmem'
        · rfl
        · exfalso
          have hbound := containsS_bounds tl (s0 + hd.length) hlay.2 hlen' comp hmem' s hcont
          rcases hc with ⟨_, h2⟩
          rw [hlay.1] at h2
          linarith [hbound.1]
    · rw [if_neg hc]
      rw [ih (s0 + hd.length) hlay.2 hlen' s comp]
      constructor
      · intro ⟨hmem, hcont⟩; exact ⟨List.mem_cons_of_mem hd hmem, hcont⟩
      · intro ⟨hmem, hcont⟩
        rcases List.mem_cons.mp hmem with rfl | hmem'
        · exact absurd hcont hc
        · exact ⟨hmem', hcont⟩

theorem findContainingS_eq_none (l : List Component) (s : ℝ)
    (h : ∀ comp ∈ l, ¬ comp.containsS s) :
    Accelerator.findContainingS l s = none := by
  induction l with
  | nil => rfl
  | cons hd tl ih =>
    unfold Accelerator.findContainingS
    rw [if_neg (h hd (List.mem_cons_self hd tl))]
    exact ih (fun cx hx => h cx (List.mem_cons_of_mem hd hx))

theorem cppFmod_wrap (s total : ℝ) (htot : 0 < total) :
    0 ≤ (if Accelerator.cppFmod s total < 0 then Accelerator.cppFmod s total + total
         else Accelerator.cppFmod s total) ∧
    (if Accelerator.cppFmod s total < 0 then Accelerator.cppFmod s total + total
     else Accelerator.cppFmod s total) < total ∧
    ∃ k : ℤ, s - (if Accelerator.cppFmod s total < 0 then Accelerator.cppFmod s total + total
      else Accelerator.cppFmod s total) = k * total := by
  have htne : total ≠ 0 := ne_of_gt htot
  have hkey : total * (s / total) = s := by field_simp
  unfold Accelerator.cppFmod Accelerator.realTrunc
  by_cases hr0 : 0 ≤ s / total
  · rw [if_pos hr0]
    have hfl : (0 : ℝ) ≤ s / total - ⌊s / total⌋ := by
      linarith [Int.floor_le (s / total)]
    have hfu : s / total - ⌊s / total⌋ < 1 := by
      linarith [Int.lt_floor_add_one (s / total)]
    have hfmod : s - total * (⌊s / total⌋ : ℝ) = total * (s / total - ⌊s / total⌋) := by
      rw [mul_sub, hkey]
    rw [hfmod]
    have h0 : 0 ≤ total * (s / total - ⌊s / total⌋) := mul_nonneg htot.le hfl
    rw [if_neg (not_lt.mpr h0)]
    refine ⟨h0, ?_, ⟨⌊s / total⌋, ?_⟩⟩
    · calc total * (s / total - ⌊s / total⌋) < total * 1 :=
            mul_lt_mul_of_pos_left hfu htot
        _ = total := mul_one total
    · rw [mul_sub, hkey]; ring
  · rw [if_neg hr0]
    push_neg at hr0
    have hcl : s / total ≤ ⌈s / total⌉ := Int.le_ceil (s / total)
    have hcu : (⌈s / total⌉ : ℝ) < s / total + 1 := Int.ceil_lt_add_one (s / total)
    have hfmod : s - total * (⌈s / total⌉ : ℝ) = total * (s / total - ⌈s / total⌉) := by
      rw [mul_sub, hkey]
    rw [hfmod]
    have hle : total * (s / total - ⌈s / total⌉) ≤ 0 :=
      mul_nonpos_of_nonneg_of_nonpos htot.le (by linarith)
    have hgt : -total < total * (s / total - ⌈s / total⌉) := by
      have h2 : total * (-1) < total * (s / total - ⌈s / total⌉) :=
        mul_lt_mul_of_pos_left (by linarith) htot
      linarith [h2]
    by_cases hneg : total * (s / total - ⌈s / total⌉) < 0
    · rw [if_pos hneg]
      refine ⟨by linarith, by linarith, ⟨⌈s / total⌉ - 1, ?_⟩⟩
      rw [mul_sub, hkey]; push_cast; ring
    · rw [if_neg hneg]
      refine ⟨not_lt.mp hneg, lt_of_le_of_lt hle htot, ⟨⌈s / total⌉, ?_⟩⟩
      rw [mul_sub, hkey]; ring

/-- Claim C8: under consistent s-positions (as `updateSPositions` assigns
them, with nonnegative lengths), `getComponentAtS(s)` returns a component
exactly when that component's interval `[s_i, s_i + L_i)` contains the
reduced coordinate; for a circular lattice of positive total length the
coordinate is first reduced modulo the total length into `[0, total)`;
an empty lattice returns nothing; and on a linear lattice any `s` outside
`[0, total)` returns nothing. -/
theorem claim_C8_getComponentAtS (acc : Accelerator) (s : ℝ) (comp : Component)
    (hlay : laidOutFrom 0 acc.components)
    (htot : acc.totalLength = (acc.components.map Component.length).sum)
    (hlen : ∀ cx ∈ acc.components, 0 ≤ cx.length) :
    (acc.getComponentAtS s = some comp ↔
      comp ∈ acc.components ∧ comp.containsS (acc.reduceS s)) ∧
    (acc.latticeType = LatticeType.Circular → 0 < acc.totalLength →
      0 ≤ acc.reduceS s ∧ acc.reduceS s < acc.totalLength ∧
      ∃ k : ℤ, s - acc.reduceS s = k * acc.totalLength) ∧
    (acc.components = [] → acc.getComponentAtS s = none) ∧
    (acc.latticeType = LatticeType.Linear → (s < 0 ∨ acc.totalLength ≤ s) →
      acc.getComponentAtS s = none) := by
  refine ⟨?_, ?_, ?_, ?_⟩
  · exact findContainingS_eq_some acc.components 0 hlay hlen (acc.reduceS s) comp
  · intro hcirc hpos
    unfold Accelerator.reduceS
    rw [if_pos ⟨hcirc, hpos⟩]
    exact cppFmod_wrap s acc.totalLength hpos
  · intro hempty
    unfold Accelerator.getComponentAtS
    rw [hempty]
    rfl
  · intro hlin hout
    have hred : acc.reduceS s = s := by
      unfold Accelerator.reduceS
      rw [if_neg (by rw [hlin]; simp)]
    unfold Accelerator.getComponentAtS
    rw [hred]
    apply findContainingS_eq_none
    intro cx hx hcont
    have hbound := containsS_bounds acc.components 0 hlay hlen cx hx s hcont
    rw [← htot] at hbound
    rcases hout with h | h
    · linarith [hbound.1]
    · linarith [hbound.2]

/-- Witness for claim C8: a concrete two-component circular lattice with
consistent s-positions satisfies all hypotheses. -/
theorem claim_C8_getComponentAtS_witness :
    (laidOutFrom 0 (Accelerator.mk
        [mkBeamPipe "A" 1 Aperture.default,
         Component.mk ComponentKind.beamPipe "B" 2 Aperture.default 1 0 Quat.one]
        LatticeType.Circular 3 0).components ∧
      (Accelerator.mk
        [mkBeamPipe "A" 1 Aperture.default,
         Component.mk ComponentKind.beamPipe "B" 2 Aperture.default 1 0 Quat.one]
        LatticeType.Circular 3 0).totalLength
        = (((Accelerator.mk
            [mkBeamPipe "A" 1 Aperture.default,
             Component.mk ComponentKind.beamPipe "B" 2 Aperture.default 1 0 Quat.one]
            LatticeType.Circular 3 0).components).map Component.length).sum ∧
      (∀ cx ∈ (Accelerator.mk
          [mkBeamPipe "A" 1 Aperture.default,
           Component.mk ComponentKind.beamPipe "B" 2 Aperture.default 1 0 Quat.one]
          LatticeType.Circular 3 0).components, 0 ≤ cx.length)) ∧
    ((Accelerator.mk
        [mkBeamPipe "A" 1 Aperture.default,
         Component.mk ComponentKind.beamPipe "B" 2 Aperture.default 1 0 Quat.one]
        LatticeType.Circular 3 0).latticeType = LatticeType.Circular →
      0 < (Accelerator.mk
        [mkBeamPipe "A" 1 Aperture.default,
         Component.mk ComponentKind.beamPipe "B" 2 Aperture.default 1 0 Quat.one]
        LatticeType.Circular 3 0).totalLength →
      0 ≤ (Accelerator.mk
        [mkBeamPipe "A" 1 Aperture.default,
         Component.mk ComponentKind.beamPipe "B" 2 Aperture.default 1 0 Quat.one]
        LatticeType.Circular 3 0).reduceS 5 ∧
      (Accelerator.mk
        [mkBeamPipe "A" 1 Aperture.default,
         Component.mk ComponentKind.beamPipe "B" 2 Aperture.default 1 0 Quat.one]
        LatticeType.Circular 3 0).reduceS 5 < (Accelerator.mk
        [mkBeamPipe "A" 1 Aperture.default,
         Component.mk ComponentKind.beamPipe "B" 2 Aperture.default 1 0 Quat.one]
        LatticeType.Circular 3 0).totalLength ∧
      ∃ k : ℤ, (5 : ℝ) - (Accelerator.mk
        [mkBeamPipe "A" 1 Aperture.default,
         Component.mk ComponentKind.beamPipe "B" 2 Aperture.default 1 0 Quat.one]
        LatticeType.Circular 3 0).reduceS 5 = k * (Accelerator.mk
        [mkBeamPipe "A" 1 Aperture.default,
         Component.mk ComponentKind.beamPipe "B" 2 Aperture.default 1 0 Quat.one]
        LatticeType.Circular 3 0).totalLength) := by
  have hlay : laidOutFrom 0 (Accelerator.mk
      [mkBeamPipe "A" 1 Aperture.default,
       Component.mk ComponentKind.beamPipe "B" 2 Aperture.default 1 0 Quat.one]
      LatticeType.Circular 3 0).components := by
    refine ⟨rfl, ?_, trivial⟩
    show (1 : ℝ) = 0 + 1
    norm_num
  have htot : (3 : ℝ) = ((([mkBeamPipe "A" 1 Aperture.default,
      Component.mk ComponentKind.beamPipe "B" 2 Aperture.default 1 0 Quat.one])).map
        Component.length).sum := by
    simp [mkBeamPipe]
    norm_num
  have hlen : ∀ cx ∈ (Accelerator.mk
      [mkBeamPipe "A" 1 Aperture.default,
       Component.mk ComponentKind.beamPipe "B" 2 Aperture.default 1 0 Quat.one]
      LatticeType.Circular 3 0).components, 0 ≤ cx.length := by
    intro cx hx
    rcases List.mem_cons.mp hx with rfl | hx'
    · norm_num [mkBeamPipe]
    · rcases List.mem_singleton.mp hx' with rfl
      norm_num
  exact ⟨⟨hlay, htot, hlen⟩,
    (claim_C8_getComponentAtS (Accelerator.mk
      [mkBeamPipe "A" 1 Aperture.default,
       Component.mk ComponentKind.beamPipe "B" 2 Aperture.default 1 0 Quat.one]
      LatticeType.Circular 3 0) 5 (mkBeamPipe "A" 1 Aperture.default)
      hlay htot hlen).2.1⟩

end pas.accelerator

namespace pas.physics

/-- `BeamStatistics` from `ParticleSystem.hpp`. -/
structure BeamStatistics where
  totalParticles : ℕ
  activeParticles : ℕ
  lostParticles : ℕ
  meanPosition : Vec3
  rmsSize : Vec3
  meanMomentum : Vec3
  rmsMomentum : Vec3
  meanEnergy : ℝ
  rmsEnergy : ℝ
  minEnergy : ℝ
  maxEnergy : ℝ
  emittanceX : ℝ
  emittanceY : ℝ
  normalizedEmittanceX : ℝ
  normalizedEmittanceY : ℝ

/-- The default-constructed `BeamStatistics`: all counters and moments zero. -/
def BeamStatistics.empty : BeamStatistics :=
  ⟨0, 0, 0, 0, 0, 0, 0, 0, 0, 0, 0, 0, 0, 0, 0⟩

/-- `ParticleSystem::computeStatistics` from `ParticleSystem.cpp`, as a
function of the particle list and the reference momentum.  The single C++
loop that accumulates the six emittance sums under the `|p_z| > 1e-30`
guard is rendered as one guarded fold per sum. -/
def computeStatistics (particles : List Particle) (referenceMomentum : ℝ) :
    BeamStatistics :=
  if particles.isEmpty then
    { BeamStatistics.empty with totalParticles := particles.length }
  else
    match particles.filter (fun p => p.active) with
    | [] =>
        { BeamStatistics.empty with
          totalParticles := particles.length
          activeParticles := 0
          lostParticles := particles.length }
    | a0 :: rest =>
        let active := a0 :: rest
        let n : ℝ := active.length
        let sumPos := active.foldl (fun acc p => acc + p.position) 0
        let sumMom := active.foldl (fun acc p => acc + p.momentum) 0
        let sumEnergy := active.foldl (fun acc p => acc + p.getKineticEnergy) 0
        let minEnergy := active.foldl (fun acc p => min acc p.getKineticEnergy)
          a0.getKineticEnergy
        let maxEnergy := active.foldl (fun acc p => max acc p.getKineticEnergy)
          a0.getKineticEnergy
        let meanPosition := sumPos.divs n
        let meanMomentum := sumMom.divs n
        let meanEnergy := sumEnergy / n
        let sumPosSq := active.foldl
          (fun acc p => acc + Vec3.compMul (p.position - meanPosition)
            (p.position - meanPosition)) 0
        let sumMomSq := active.foldl
          (fun acc p => acc + Vec3.compMul (p.momentum - meanMomentum)
            (p.momentum - meanMomentum)) 0
        let sumEnergySq := active.foldl
          (fun acc p => acc + (p.getKineticEnergy - meanEnergy) *
            (p.getKineticEnergy - meanEnergy)) 0
        let sumX2 := active.foldl
          (fun acc p => if |p.momentum.z| > 1e-30 then
            acc + (p.position.x - meanPosition.x) * (p.position.x - meanPosition.x)
          else acc) 0
        let sumXp2 := active.foldl
          (fun acc p => if |p.momentum.z| > 1e-30 then
            acc + p.momentum.x / p.momentum.z * (p.momentum.x / p.momentum.z)
          else acc) 0
        let sumXXp := active.foldl
          (fun acc p => if |p.momentum.z| > 1e-30 then
            acc + (p.position.x - meanPosition.x) * (p.momentum.x / p.momentum.z)
          else acc) 0
        let sumY2 := active.foldl
          (fun acc p => if |p.momentum.z| > 1e-30 then
            acc + (p.position.y - meanPosition.y) * (p.position.y - meanPosition.y)
          else acc) 0
        let sumYp2 := active.foldl
          (fun acc p => if |p.momentum.z| > 1e-30 then
            acc + p.momentum.y / p.momentum.z * (p.momentum.y / p.momentum.z)
          else acc) 0
        let sumYYp := active.foldl
          (fun acc p => if |p.momentum.z| > 1e-30 then
            acc + (p.position.y - meanPosition.y) * (p.momentum.y / p.momentum.z)
          else acc) 0
        let emittanceX := Real.sqrt (max 0 (sumX2 / n * (sumXp2 / n) -
          sumXXp / n * (sumXXp / n)))
        let emittanceY := Real.sqrt (max 0 (sumY2 / n * (sumYp2 / n) -
          sumYYp / n * (sumYYp / n)))
        let normFactor :=
          if referenceMomentum > 0 then
            constants.relativistic.betaFromGamma
                (constants.relativistic.gammaFromMomentum referenceMomentum a0.mass) *
              constants.relativistic.gammaFromMomentum referenceMomentum a0.mass
          else 0
        { totalParticles := particles.length
          activeParticles := active.length
          lostParticles := particles.length - active.length
          meanPosition := meanPosition
          rmsSize := (sumPosSq.divs n).sqrtComp
          meanMomentum := meanMomentum
          rmsMomentum := (sumMomSq.divs n).sqrtComp
          meanEnergy := meanEnergy
          rmsEnergy := Real.sqrt (sumEnergySq / n)
          minEnergy := minEnergy
          maxEnergy := maxEnergy
          emittanceX := emittanceX
          emittanceY := emittanceY
          normalizedEmittanceX := normFactor * emittanceX
          normalizedEmittanceY := normFactor * emittanceY }

/-- `ParticleSystem::getActiveParticleCount`. -/
def getActiveParticleCount (particles : List Particle) : ℕ :=
  particles.countP (fun p => p.active)

theorem foldl_add_eq_sum {α : Type} (f : α → ℝ) (l : List α) :
    ∀ init : ℝ, l.foldl (fun acc p => acc + f p) init = init + (l.map f).sum := by
  induction l with
  | nil => intro init; simp
  | cons hd tl ih =>
    intro init
    simp only [List.foldl_cons, List.map_cons, List.sum_cons]
    rw [ih (init + f hd)]
    ring

theorem foldl_guard_eq_sum_filter {α : Type} (P : α → Prop) (f : α → ℝ) (l : List α) :
    ∀ init : ℝ,
      l.foldl (fun acc p => if P p then acc + f p else acc) init =
        init + ((l.filter (fun p => if P p then true else false)).map f).sum := by
  induction l with
  | nil => intro init; simp
  | cons hd tl ih =>
    intro init
    by_cases hP : P hd
    · rw [List.foldl_cons, if_pos hP, ih (init + f hd), List.filter_cons]
      have hcond : (if P hd then true else false) = true := by rw [if_pos hP]
      rw [hcond]
      simp
      ring
    · rw [List.foldl_cons, if_neg hP, ih init, List.filter_cons]
      have hcond : (if P hd then true else false) = false := by rw [if_neg hP]
      rw [hcond]
      simp

/-- Geometric x-emittance of the beam as the specification amends it: the
three second-order sums range over the active contributors (active
particles with `|p_z| > 1e-30`), but each is divided by the number of all
active particles. -/
def amendedEmittanceX (particles : List Particle) : ℝ :=
  let active := particles.filter (fun p => p.active)
  let n : ℝ := active.length
  let mx := (active.map (fun p => p.position.x)).sum / n
  let contributors := active.filter (fun p => if |p.momentum.z| > 1e-30 then true else false)
  let sX2 := (contributors.map (fun p => (p.position.x - mx) * (p.position.x - mx))).sum
  let sXp2 := (contributors.map
    (fun p => p.momentum.x / p.momentum.z * (p.momentum.x / p.momentum.z))).sum
  let sXXp := (contributors.map
    (fun p => (p.position.x - mx) * (p.momentum.x / p.momentum.z))).sum
  Real.sqrt (max 0 (sX2 / n * (sXp2 / n) - sXXp / n * (sXXp / n)))

/-- Geometric y-emittance, amended analogously to `amendedEmittanceX`. -/
def amendedEmittanceY (particles : List Particle) : ℝ :=
  let active := particles.filter (fun p => p.active)
  let n : ℝ := active.length
  let my := (active.map (fun p => p.position.y)).sum / n
  let contributors := active.filter (fun p => if |p.momentum.z| > 1e-30 then true else false)
  let sY2 := (contributors.map (fun p => (p.position.y - my) * (p.position.y - my))).sum
  let sYp2 := (contributors.map
    (fun p => p.momentum.y / p.momentum.z * (p.momentum.y / p.momentum.z))).sum
  let sYYp := (contributors.map
    (fun p => (p.position.y - my) * (p.momentum.y / p.momentum.z))).sum
  Real.sqrt (max 0 (sY2 / n * (sYp2 / n) - sYYp / n * (sYYp / n)))

/-- Geometric x-emittance exactly as claim C5 states it: the averages
`⟨x²⟩`, `⟨x'²⟩`, `⟨x·x'⟩` are taken over the active contributors, i.e.
divided by the number of contributors. -/
def claimEmittanceX (particles : List Particle) : ℝ :=
  let active := particles.filter (fun p => p.active)
  let n : ℝ := active.length
  let mx := (active.map (fun p => p.position.x)).sum / n
  let contributors := active.filter (fun p => if |p.momentum.z| > 1e-30 then true else false)
  let m : ℝ := contributors.length
  let sX2 := (contributors.map (fun p => (p.position.x - mx) * (p.position.x - mx))).sum
  let sXp2 := (contributors.map
    (fun p => p.momentum.x / p.momentum.z * (p.momentum.x / p.momentum.z))).sum
  let sXXp := (contributors.map
    (fun p => (p.position.x - mx) * (p.momentum.x / p.momentum.z))).sum
  Real.sqrt (max 0 (sX2 / m * (sXp2 / m) - sXXp / m * (sXXp / m)))

theorem foldl_add_vec_x {α : Type} (f : α → Vec3) (l : List α) :
    ∀ init : Vec3, (l.foldl (fun acc p => acc + f p) init).x =
      init.x + (l.map (fun p => (f p).x)).sum := by
  induction l with
  | nil => intro init; simp
  | cons hd tl ih =>
    intro init
    simp only [List.foldl_cons, List.map_cons, List.sum_cons]
    rw [ih (init + f hd)]
    simp
    ring

theorem foldl_add_vec_y {α : Type} (f : α → Vec3) (l : List α) :
    ∀ init : Vec3, (l.foldl (fun acc p => acc + f p) init).y =
      init.y + (l.map (fun p => (f p).y)).sum := by
  induction l with
  | nil => intro init; simp
  | cons hd tl ih =>
    intro init
    simp only [List.foldl_cons, List.map_cons, List.sum_cons]
    rw [ih (init + f hd)]
    simp
    ring

theorem fold_sumX2 (l : List Particle) (mx : ℝ) :
    l.foldl (fun acc p => if |p.momentum.z| > 1e-30 then
        acc + (p.position.x - mx) * (p.position.x - mx) else acc) 0 =
      ((l.filter (fun p => if |p.momentum.z| > 1e-30 then true else false)).map
        (fun p => (p.position.x - mx) * (p.position.x - mx))).sum := by
  have := foldl_guard_eq_sum_filter (fun p => |p.momentum.z| > 1e-30)
    (fun p => (p.position.x - mx) * (p.position.x - mx)) l 0
  simpa using this

theorem fold_sumXp2 (l : List Particle) :
    l.foldl (fun acc p => if |p.momentum.z| > 1e-30 then
        acc + p.momentum.x / p.momentum.z * (p.momentum.x / p.momentum.z) else acc) 0 =
      ((l.filter (fun p => if |p.momentum.z| > 1e-30 then true else false)).map
        (fun p => p.momentum.x / p.momentum.z * (p.momentum.x / p.momentum.z))).sum := by
  have := foldl_guard_eq_sum_filter (fun p => |p.momentum.z| > 1e-30)
    (fun p => p.momentum.x / p.momentum.z * (p.momentum.x / p.momentum.z)) l 0
  simpa using this

theorem fold_sumXXp (l : List Particle) (mx : ℝ) :
    l.foldl (fun acc p => if |p.momentum.z| > 1e-30 then
        acc + (p.position.x - mx) * (p.momentum.x / p.momentum.z) else acc) 0 =
      ((l.filter (fun p => if |p.momentum.z| > 1e-30 then true else false)).map
        (fun p => (p.position.x - mx) * (p.momentum.x / p.momentum.z))).sum := by
  have := foldl_guard_eq_sum_filter (fun p => |p.momentum.z| > 1e-30)
    (fun p => (p.position.x - mx) * (p.momentum.x / p.momentum.z)) l 0
  simpa using this

theorem fold_sumY2 (l : List Particle) (my : ℝ) :
    l.foldl (fun acc p => if |p.momentum.z| > 1e-30 then
        acc + (p.position.y - my) * (p.position.y - my) else acc) 0 =
      ((l.filter (fun p => if |p.momentum.z| > 1e-30 then true else false)).map
        (fun p => (p.position.y - my) * (p.position.y - my))).sum := by
  have := foldl_guard_eq_sum_filter (fun p => |p.momentum.z| > 1e-30)
    (fun p => (p.position.y - my) * (p.position.y - my)) l 0
  simpa using this

theorem fold_sumYp2 (l : List Particle) :
    l.foldl (fun acc p => if |p.momentum.z| > 1e-30 then
        acc + p.momentum.y / p.momentum.z * (p.momentum.y / p.momentum.z) else acc) 0 =
      ((l.filter (fun p => if |p.momentum.z| > 1e-30 then true else false)).map
        (fun p => p.momentum.y / p.momentum.z * (p.momentum.y / p.momentum.z))).sum := by
  have := foldl_guard_eq_sum_filter (fun p => |p.momentum.z| > 1e-30)
    (fun p => p.momentum.y / p.momentum.z * (p.momentum.y / p.momentum.z)) l 0
  simpa using this

theorem fold_sumYYp (l : List Particle) (my : ℝ) :
    l.foldl (fun acc p => if |p.momentum.z| > 1e-30 then
        acc + (p.position.y - my) * (p.momentum.y / p.momentum.z) else acc) 0 =
      ((l.filter (fun p => if |p.momentum.z| > 1e-30 then true else false)).map
        (fun p => (p.position.y - my) * (p.momentum.y / p.momentum.z))).sum := by
  have := foldl_guard_eq_sum_filter (fun p => |p.momentum.z| > 1e-30)
    (fun p => (p.position.y - my) * (p.momentum.y / p.momentum.z)) l 0
  simpa using this

theorem computeStatistics_emittance_eq (particles : List Particle) (r : ℝ)
    (h : particles.filter (fun p => p.active) ≠ []) :
    (computeStatistics particles r).emittanceX = amendedEmittanceX particles ∧
    (computeStatistics particles r).emittanceY = amendedEmittanceY particles := by
  rcases hfil : particles.filter (fun p => p.active) with _ | ⟨a0, rest⟩
  · exact absurd hfil h
  have hne : ¬ particles.isEmpty := by
    intro hemp
    rw [List.isEmpty_iff.mp hemp] at hfil
    simp at hfil
  have hmx : (((a0 :: rest).foldl (fun (acc : Vec3) (p : Particle) => acc + p.position)
      0).divs ((a0 :: rest).length : ℝ)).x =
      ((a0 :: rest).map (fun p => p.position.x)).sum / ((a0 :: rest).length : ℝ) := by
    rw [Vec3.divs_x, foldl_add_vec_x (fun p => p.position) (a0 :: rest) 0]
    simp
  have hmy : (((a0 :: rest).foldl (fun (acc : Vec3) (p : Particle) => acc + p.position)
      0).divs ((a0 :: rest).length : ℝ)).y =
      ((a0 :: rest).map (fun p => p.position.y)).sum / ((a0 :: rest).length : ℝ) := by
    rw [Vec3.divs_y, foldl_add_vec_y (fun p => p.position) (a0 :: rest) 0]
    simp
  unfold computeStatistics amendedEmittanceX amendedEmittanceY
  rw [if_neg hne, hfil]
  simp only [hmx, hmy, fold_sumX2, fold_sumXp2, fold_sumXXp, fold_sumY2, fold_sumYp2,
    fold_sumYYp]
  exact ⟨trivial, trivial⟩

/-- A concrete active particle whose `p_z = 0` is skipped by the emittance
loop but still counted in the divisor. -/
def emitP1 : Particle := ⟨⟨0, 0, 0⟩, ⟨0, 0, 0⟩, 1, 0, constants.c2, 1, 0, true⟩

/-- A concrete active contributor at `x = 1` with `x' = 0`. -/
def emitP2 : Particle := ⟨⟨1, 0, 0⟩, ⟨0, 0, 1⟩, 1, 0, constants.c2, 1, 0, true⟩

/-- A concrete active contributor at `x = -1` with `x' = 1`. -/
def emitP3 : Particle := ⟨⟨-1, 0, 0⟩, ⟨1, 0, 1⟩, 1, 0, constants.c2, 1, 0, true⟩

theorem emit_filter_active :
    [emitP1, emitP2, emitP3].filter (fun p => p.active) = [emitP1, emitP2, emitP3] := rfl

theorem emit_guard1 : (if |emitP1.momentum.z| > 1e-30 then true else false) = false :=
  if_neg (by norm_num [emitP1])

theorem emit_guard2 : (if |emitP2.momentum.z| > 1e-30 then true else false) = true :=
  if_pos (by norm_num [emitP2])

theorem emit_guard3 : (if |emitP3.momentum.z| > 1e-30 then true else false) = true :=
  if_pos (by norm_num [emitP3])

theorem emit_contributors :
    [emitP1, emitP2, emitP3].filter
      (fun p => if |p.momentum.z| > 1e-30 then true else false) = [emitP2, emitP3] := by
  simp only [List.filter_cons, emit_guard1, emit_guard2, emit_guard3, List.filter_nil]
  simp

theorem amendedEmittanceX_eval : amendedEmittanceX [emitP1, emitP2, emitP3] = 1 / 3 := by
  unfold amendedEmittanceX
  simp only [emit_filter_active, emit_contributors]
  simp only [List.map_cons, List.map_nil, List.sum_cons, List.sum_nil, List.length_cons,
    List.length_nil]
  norm_num [emitP1, emitP2, emitP3]
  rw [show (9 : ℝ) = 3 ^ 2 by norm_num, Real.sqrt_sq (by norm_num : (0 : ℝ) ≤ 3)]
  norm_num

theorem claimEmittanceX_eval : claimEmittanceX [emitP1, emitP2, emitP3] = 1 / 2 := by
  unfold claimEmittanceX
  simp only [emit_filter_active, emit_contributors]
  simp only [List.map_cons, List.map_nil, List.sum_cons, List.sum_nil, List.length_cons,
    List.length_nil]
  norm_num [emitP1, emitP2, emitP3]
  rw [show (4 : ℝ) = 2 ^ 2 by norm_num, Real.sqrt_sq (by norm_num : (0 : ℝ) ≤ 2)]
  norm_num

/-- Claim C5 (amended): in `computeStatistics` the geometric emittance is
`ε_x = √(max(0, ⟨x²⟩·⟨x'²⟩ − ⟨x·x'⟩²))` with `x' = p_x/p_z`, particles with
`|p_z| < 1e-30` skipped from the sums, and each of the three averages formed
by dividing the contributor-only sum by the number of ALL active particles
(not by the number of contributors); analogously for y. -/
theorem claim_C5_emittance_amended (particles : List Particle) (r : ℝ)
    (h : particles.filter (fun p => p.active) ≠ []) :
    (computeStatistics particles r).emittanceX = amendedEmittanceX particles ∧
    (computeStatistics particles r).emittanceY = amendedEmittanceY particles :=
  computeStatistics_emittance_eq particles r h

/-- Witness for claim C5 (amended): the active-nonempty hypothesis holds on
a concrete three-particle beam. -/
theorem claim_C5_emittance_amended_witness :
    [emitP1, emitP2, emitP3].filter (fun p => p.active) ≠ [] ∧
    ((computeStatistics [emitP1, emitP2, emitP3] 0).emittanceX
        = amendedEmittanceX [emitP1, emitP2, emitP3] ∧
      (computeStatistics [emitP1, emitP2, emitP3] 0).emittanceY
        = amendedEmittanceY [emitP1, emitP2, emitP3]) :=
  ⟨by rw [emit_filter_active]; simp,
    claim_C5_emittance_amended [emitP1, emitP2, emitP3] 0
      (by rw [emit_filter_active]; simp)⟩

/-- Counterexample for claim C5 as stated: on a concrete beam with three
active particles of which one is skipped (`p_z = 0`), the code's emittance
(sums divided by the active count 3) is `1/3`, while the claim's formula
with averages over the two active contributors gives `1/2`. -/
theorem claim_C5_counterexample :
    (computeStatistics [emitP1, emitP2, emitP3] 0).emittanceX
      ≠ claimEmittanceX [emitP1, emitP2, emitP3] := by
  have h := computeStatistics_emittance_eq [emitP1, emitP2, emitP3] 0
    (by rw [emit_filter_active]; simp)
  rw [h.1, amendedEmittanceX_eval, claimEmittanceX_eval]
  norm_num

/-- `SimulationState` from `PhysicsEngine.hpp`. -/
inductive SimulationState where
  | Stopped
  | Running
  | Paused
deriving DecidableEq

/-- The `PhysicsEngine` state, from `PhysicsEngine.hpp`: simulation control
state, fixed-step configuration, the particle system (particle list plus
reference momentum), the field manager, the bound accelerator's component
list (`none` when no lattice is bound), the integrator strategy, the loss
callback (modelled as a set/unset flag plus the log of particle snapshots it
was invoked with), and the published statistics. -/
structure EngineState where
  state : SimulationState
  timeStep : ℝ
  timeScale : ℝ
  maxStepsPerFrame : ℕ
  accumulatedTime : ℝ
  currentTime : ℝ
  particles : List Particle
  referenceMomentum : ℝ
  fieldManager : EMFieldManager
  accelerator : Option (List pas.accelerator.Component)
  integrator : EMFieldManager → ℝ → ℝ → Particle → Particle
  lossCallback : Bool
  lossEvents : List Particle
  statsSimulationTime : ℝ
  statsStepCount : ℕ
  statsLostParticleCount : ℕ
  statsStepsPerSecond : ℝ
  statsParticleCount : ℕ
  statsAverageEnergy : ℝ
  statsEnergySpread : ℝ
  lastStepTime : ℝ
  stepsThisSecond : ℕ

/-- The loss condition of `PhysicsEngine::checkParticleLosses` for one
particle: active, inside no component's aperture, the component list is
nonempty, and the transverse radius exceeds the 0.1 m fallback aperture. -/
def lostPred (comps : List pas.accelerator.Component) (p : Particle) : Prop :=
  p.active = true ∧
  (¬ ∃ comp ∈ comps, comp.isInsideAperture p.position) ∧
  comps ≠ [] ∧
  Real.sqrt (p.position.x * p.position.x + p.position.y * p.position.y) > 0.1

/-- The particle loop of `PhysicsEngine::checkParticleLosses`: returns the
updated particle list, the number of particles lost, and the list of
particle snapshots passed to the loss callback (empty when it is unset). -/
def checkLossesFold (comps : List pas.accelerator.Component) (cb : Bool) :
    List Particle → List Particle × ℕ × List Particle
  | [] => ([], 0, [])
  | p :: rest =>
      let r := checkLossesFold comps cb rest
      if lostPred comps p then
        (p.setActive false :: r.1, r.2.1 + 1,
          (if cb then [p.setActive false] else []) ++ r.2.2)
      else (p :: r.1, r.2.1, r.2.2)

/-- `PhysicsEngine::checkParticleLosses`: a no-op without a bound
accelerator; otherwise run the loss loop, deactivate the lost particles,
bump the lost counter and invoke the callback on each loss. -/
def checkParticleLosses (e : EngineState) : EngineState :=
  match e.accelerator with
  | none => e
  | some comps =>
      let r := checkLossesFold comps e.lossCallback e.particles
      { e with particles := r.1
               statsLostParticleCount := e.statsLostParticleCount + r.2.1
               lossEvents := e.lossEvents ++ r.2.2 }

/-- `PhysicsEngine::step`: integrate each active particle, run loss
detection, then advance the simulation clock and step counters.  The
null-integrator guard is dropped: the constructor always installs an
integrator and `setIntegrator` only ever replaces it. -/
def PhysicsEngine.step (e : EngineState) : EngineState :=
  let newParticles := e.particles.map (fun p =>
    if p.active = true then e.integrator e.fieldManager e.currentTime e.timeStep p else p)
  let integrated := { e with particles := newParticles }
  let e1 := checkParticleLosses integrated
  { e1 with currentTime := e1.currentTime + e1.timeStep
            statsSimulationTime := e1.currentTime + e1.timeStep
            statsStepCount := e1.statsStepCount + 1
            stepsThisSecond := e1.stepsThisSecond + 1 }

/-- `PhysicsEngine::updateStats`. -/
def PhysicsEngine.updateStats (e : EngineState) (frameTime : ℝ) : EngineState :=
  let e1 := { e with lastStepTime := e.lastStepTime + frameTime }
  let e2 :=
    if e1.lastStepTime ≥ 1.0 then
      { e1 with statsStepsPerSecond := (e1.stepsThisSecond : ℝ) / e1.lastStepTime
                stepsThisSecond := 0
                lastStepTime := 0 }
    else e1
  let bs := computeStatistics e2.particles e2.referenceMomentum
  { e2 with statsParticleCount := getActiveParticleCount e2.particles
            statsAverageEnergy := bs.meanEnergy
            statsEnergySpread := bs.rmsEnergy }

/-- The fixed-timestep drain loop of `PhysicsEngine::update`: run sub-steps
while the accumulator holds a full `Δt` and fuel (the remaining allowance
out of `maxStepsPerFrame`) is left; returns the final state and the number
of sub-steps taken. -/
def PhysicsEngine.updateLoop : EngineState → ℕ → EngineState × ℕ
  | e, 0 => (e, 0)
  | e, Nat.succ fuel =>
      if e.accumulatedTime ≥ e.timeStep then
        let e1 := PhysicsEngine.step e
        let e2 := { e1 with accumulatedTime := e1.accumulatedTime - e1.timeStep }
        let r := PhysicsEngine.updateLoop e2 fuel
        (r.1, r.2 + 1)
      else (e, 0)

/-- `PhysicsEngine::update`. -/
def PhysicsEngine.update (e : EngineState) (deltaTime : ℝ) : EngineState :=
  if e.state ≠ SimulationState.Running then e
  else
    let e0 := { e with accumulatedTime := e.accumulatedTime + deltaTime * e.timeScale }
    let r := PhysicsEngine.updateLoop e0 e0.maxStepsPerFrame
    let e2 :=
      if r.2 ≥ e0.maxStepsPerFrame ∧ r.1.accumulatedTime > r.1.timeStep then
        { r.1 with accumulatedTime := 0 }
      else r.1
    PhysicsEngine.updateStats e2 deltaTime

theorem checkLossesFold_spec (comps : List pas.accelerator.Component) (cb : Bool)
    (l : List Particle) :
    (checkLossesFold comps cb l).1
        = l.map (fun p => if lostPred comps p then p.setActive false else p) ∧
    (checkLossesFold comps cb l).2.1
        = l.countP (fun p => if lostPred comps p then true else false) ∧
    (checkLossesFold comps cb l).2.2
        = if cb then (l.filter (fun p => if lostPred comps p then true else false)).map
            (fun p => p.setActive false)
          else [] := by
  induction l with
  | nil => refine ⟨rfl, rfl, ?_⟩; cases cb <;> rfl
  | cons hd tl ih =>
    by_cases hP : lostPred comps hd
    · have hcond : (if lostPred comps hd then true else false) = true := if_pos hP
      simp only [checkLossesFold, if_pos hP, hcond, List.map_cons, List.countP_cons,
        List.filter_cons]
      refine ⟨?_, ?_, ?_⟩
      · rw [ih.1]
      · rw [ih.2.1]; simp
      · rw [ih.2.2]; cases cb <;> simp
    · have hcond : (if lostPred comps hd then true else false) = false := if_neg hP
      simp only [checkLossesFold, if_neg hP, hcond, List.map_cons, List.countP_cons,
        List.filter_cons]
      refine ⟨?_, ?_, ?_⟩
      · rw [ih.1]
      · rw [ih.2.1]; simp
      · rw [ih.2.2]; cases cb <;> simp

/-- The loss condition as claim C4 states it for a nonempty bound lattice:
active, inside no component's aperture, and transverse radius above 0.10 m. -/
def claimLost (comps : List pas.accelerator.Component) (p : Particle) : Prop :=
  p.active = true ∧
  (¬ ∃ comp ∈ comps, comp.isInsideAperture p.position) ∧
  Real.sqrt (p.position.x * p.position.x + p.position.y * p.position.y) > 0.1

theorem lostPred_iff_claimLost (comps : List pas.accelerator.Component)
    (hne : comps ≠ []) (p : Particle) : lostPred comps p ↔ claimLost comps p := by
  unfold lostPred claimLost
  constructor
  · rintro ⟨h1, h2, _, h4⟩; exact ⟨h1, h2, h4⟩
  · rintro ⟨h1, h2, h4⟩; exact ⟨h1, h2, hne, h4⟩

/-- Claim C4: with a lattice bound and at least one component, an active
particle is marked lost at the end of a sub-step exactly when it is inside
no component's aperture and its transverse radius exceeds 0.10 m; each lost
particle is set inactive, the lost counter is incremented once per loss,
and the loss callback (when set) is invoked with the particle snapshot;
with no lattice bound, `checkParticleLosses` changes nothing. -/
theorem claim_C4_particle_losses (e : EngineState) :
    (e.accelerator = none → checkParticleLosses e = e) ∧
    (∀ comps, e.accelerator = some comps → comps ≠ [] →
      (checkParticleLosses e).particles
          = e.particles.map (fun p => if claimLost comps p then p.setActive false else p) ∧
      (checkParticleLosses e).statsLostParticleCount
          = e.statsLostParticleCount +
            e.particles.countP (fun p => if claimLost comps p then true else false) ∧
      (checkParticleLosses e).lossEvents
          = e.lossEvents ++
            (if e.lossCallback then
              (e.particles.filter (fun p => if claimLost comps p then true else false)).map
                (fun p => p.setActive false)
            else [])) := by
  constructor
  · intro hacc
    unfold checkParticleLosses
    rw [hacc]
  · intro comps hacc hne
    have hiff : ∀ p : Particle, lostPred comps p = claimLost comps p :=
      fun p => propext (lostPred_iff_claimLost comps hne p)
    have hspec := checkLossesFold_spec comps e.lossCallback e.particles
    unfold checkParticleLosses
    rw [hacc]
    simp only [hspec.1, hspec.2.1, hspec.2.2, hiff]
    exact ⟨trivial, trivial, trivial⟩

/-- Witness for claim C4: a concrete engine state with a one-component
lattice bound satisfies the hypotheses. -/
theorem claim_C4_particle_losses_witness :
    ((EngineState.mk SimulationState.Running 1 1 1 0 0 [emitP1] 0 ⟨[]⟩
        (some [pas.accelerator.mkBeamPipe "A" 1 pas.accelerator.Aperture.default])
        (fun _ _ _ p => p) false [] 0 0 0 0 0 0 0 0 0).accelerator
      = some [pas.accelerator.mkBeamPipe "A" 1 pas.accelerator.Aperture.default] ∧
      [pas.accelerator.mkBeamPipe "A" 1 pas.accelerator.Aperture.default] ≠ []) ∧
    (checkParticleLosses (EngineState.mk SimulationState.Running 1 1 1 0 0 [emitP1] 0 ⟨[]⟩
        (some [pas.accelerator.mkBeamPipe "A" 1 pas.accelerator.Aperture.default])
        (fun _ _ _ p => p) false [] 0 0 0 0 0 0 0 0 0)).particles
      = [emitP1].map (fun p =>
          if claimLost [pas.accelerator.mkBeamPipe "A" 1 pas.accelerator.Aperture.default] p
          then p.setActive false else p) :=
  ⟨⟨rfl, by simp⟩,
    ((claim_C4_particle_losses (EngineState.mk SimulationState.Running 1 1 1 0 0 [emitP1] 0
        ⟨[]⟩ (some [pas.accelerator.mkBeamPipe "A" 1 pas.accelerator.Aperture.default])
        (fun _ _ _ p => p) false [] 0 0 0 0 0 0 0 0 0)).2
      [pas.accelerator.mkBeamPipe "A" 1 pas.accelerator.Aperture.default] rfl (by simp)).1⟩

/-- The sub-state of the engine that claim C3 talks about: accumulator,
simulation clock, step counter, particle list, lost counter, and the loss
callback log. -/
structure EngineCore where
  accumulatedTime : ℝ
  currentTime : ℝ
  stepCount : ℕ
  particles : List Particle
  lostCount : ℕ
  lossEvents : List Particle

/-- Projection of the engine state onto the claim C3 sub-state. -/
def EngineState.core (e : EngineState) : EngineCore :=
  ⟨e.accumulatedTime, e.currentTime, e.statsStepCount, e.particles,
    e.statsLostParticleCount, e.lossEvents⟩

/-- One sub-step as claim C3 states it: integrate every active particle with
the current integrator at `(t_sim, Δt)`, run loss detection, advance `t_sim`
by `Δt`, increment the step counter, and subtract `Δt` from the
accumulator. -/
def specSubStep (dt : ℝ) (integ : EMFieldManager → ℝ → ℝ → Particle → Particle)
    (fm : EMFieldManager) (accel : Option (List pas.accelerator.Component)) (cb : Bool)
    (s : EngineCore) : EngineCore :=
  let integrated := s.particles.map (fun p =>
    if p.active = true then integ fm s.currentTime dt p else p)
  let lossResult :=
    match accel with
    | none => (integrated, 0, [])
    | some comps => checkLossesFold comps cb integrated
  { accumulatedTime := s.accumulatedTime - dt
    currentTime := s.currentTime + dt
    stepCount := s.stepCount + 1
    particles := lossResult.1
    lostCount := s.lostCount + lossResult.2.1
    lossEvents := s.lossEvents ++ lossResult.2.2 }

/-- The while-loop of claim C3: run sub-steps while the accumulator holds a
full `Δt` and fewer than the allowed sub-steps have run. -/
def specLoop (dt : ℝ) (integ : EMFieldManager → ℝ → ℝ → Particle → Particle)
    (fm : EMFieldManager) (accel : Option (List pas.accelerator.Component)) (cb : Bool) :
    EngineCore → ℕ → EngineCore × ℕ
  | s, 0 => (s, 0)
  | s, Nat.succ fuel =>
      if s.accumulatedTime ≥ dt then
        let r := specLoop dt integ fm accel cb (specSubStep dt integ fm accel cb s) fuel
        (r.1, r.2 + 1)
      else (s, 0)

/-- `update` as claim C3 states it: add `timeScale·dt_wall` to the
accumulator, drain it in at most `M` sub-steps, and if the cap was reached
with more than `Δt` still pending, reset the accumulator to zero. -/
def specUpdate (dt ts : ℝ) (M : ℕ)
    (integ : EMFieldManager → ℝ → ℝ → Particle → Particle) (fm : EMFieldManager)
    (accel : Option (List pas.accelerator.Component)) (cb : Bool) (s : EngineCore)
    (dtWall : ℝ) : EngineCore :=
  let s0 := { s with accumulatedTime := s.accumulatedTime + ts * dtWall }
  let r := specLoop dt integ fm accel cb s0 M
  if r.2 ≥ M ∧ r.1.accumulatedTime > dt then { r.1 with accumulatedTime := 0 } else r.1

theorem step_preserves_static (e : EngineState) :
    (PhysicsEngine.step e).timeStep = e.timeStep ∧
    (PhysicsEngine.step e).integrator = e.integrator ∧
    (PhysicsEngine.step e).fieldManager = e.fieldManager ∧
    (PhysicsEngine.step e).accelerator = e.accelerator ∧
    (PhysicsEngine.step e).lossCallback = e.lossCallback ∧
    (PhysicsEngine.step e).accumulatedTime = e.accumulatedTime := by
  unfold PhysicsEngine.step checkParticleLosses
  rcases haccel : e.accelerator with _ | comps <;> simp [haccel]

theorem step_core_commute (e : EngineState) :
    EngineState.core { PhysicsEngine.step e with
        accumulatedTime := (PhysicsEngine.step e).accumulatedTime -
          (PhysicsEngine.step e).timeStep } =
      specSubStep e.timeStep e.integrator e.fieldManager e.accelerator e.lossCallback
        e.core := by
  unfold PhysicsEngine.step checkParticleLosses specSubStep EngineState.core
  rcases haccel : e.accelerator with _ | comps <;> simp [haccel]

theorem loop_core_commute (dt : ℝ)
    (integ : EMFieldManager → ℝ → ℝ → Particle → Particle) (fm : EMFieldManager)
    (accel : Option (List pas.accelerator.Component)) (cb : Bool) (fuel : ℕ) :
    ∀ e : EngineState, e.timeStep = dt → e.integrator = integ → e.fieldManager = fm →
      e.accelerator = accel → e.lossCallback = cb →
      EngineState.core (PhysicsEngine.updateLoop e fuel).1
          = (specLoop dt integ fm accel cb e.core fuel).1 ∧
      (PhysicsEngine.updateLoop e fuel).2 = (specLoop dt integ fm accel cb e.core fuel).2 ∧
      (PhysicsEngine.updateLoop e fuel).1.timeStep = dt := by
  induction fuel with
  | zero =>
    intro e h1 h2 h3 h4 h5
    exact ⟨rfl, rfl, h1⟩
  | succ fuel ih =>
    intro e h1 h2 h3 h4 h5
    by_cases hc : e.accumulatedTime ≥ e.timeStep
    · have hstat := step_preserves_static e
      have hbody := step_core_commute e
      have hrec := ih { PhysicsEngine.step e with
          accumulatedTime := (PhysicsEngine.step e).accumulatedTime -
            (PhysicsEngine.step e).timeStep }
        (by show (PhysicsEngine.step e).timeStep = dt; rw [hstat.1, h1])
        (by show (PhysicsEngine.step e).integrator = integ; rw [hstat.2.1, h2])
        (by show (PhysicsEngine.step e).fieldManager = fm; rw [hstat.2.2.1, h3])
        (by show (PhysicsEngine.step e).accelerator = accel; rw [hstat.2.2.2.1, h4])
        (by show (PhysicsEngine.step e).lossCallback = cb; rw [hstat.2.2.2.2.1, h5])
      have hc2 : e.core.accumulatedTime ≥ dt := by
        show e.accumulatedTime ≥ dt
        rw [← h1]; exact hc
      rw [hbody, h1, h2, h3, h4, h5] at hrec
      unfold PhysicsEngine.updateLoop
      rw [if_pos hc]
      unfold specLoop
      rw [if_pos hc2]
      exact ⟨hrec.1, congrArg (fun n => n + 1) hrec.2.1, hrec.2.2⟩
    · have hc2 : ¬ e.core.accumulatedTime ≥ dt := by
        show ¬ e.accumulatedTime ≥ dt
        rw [← h1]; exact hc
      unfold PhysicsEngine.updateLoop
      rw [if_neg hc]
      unfold specLoop
      rw [if_neg hc2]
      exact ⟨rfl, rfl, h1⟩

theorem updateStats_core (e : EngineState) (frameTime : ℝ) :
    EngineState.core (PhysicsEngine.updateStats e frameTime) = EngineState.core e := by
  by_cases h : e.lastStepTime + frameTime ≥ 1.0
  · simp [PhysicsEngine.updateStats, EngineState.core, h]
  · simp [PhysicsEngine.updateStats, EngineState.core, h]

/-- Claim C3: `PhysicsEngine::update(dt_wall)` does nothing when the state
is not `Running`; when it is, on the claim's sub-state (accumulator, clock,
step counter, particles, lost counter, loss-callback log) it acts exactly as
the specification's accumulator algorithm: add `timeScale·dt_wall`, run
sub-steps (integrate active particles at `(t_sim, Δt)`, loss detection,
`t_sim += Δt`, step counter`++`, `a -= Δt`) while `a ≥ Δt` and fewer than
`maxStepsPerFrame` sub-steps have run, and reset `a` to 0 if the cap was
reached with `a` still above `Δt`. -/
theorem claim_C3_engine_update (e : EngineState) (dtWall : ℝ) :
    (e.state ≠ SimulationState.Running → PhysicsEngine.update e dtWall = e) ∧
    (e.state = SimulationState.Running →
      EngineState.core (PhysicsEngine.update e dtWall)
        = specUpdate e.timeStep e.timeScale e.maxStepsPerFrame e.integrator
            e.fieldManager e.accelerator e.lossCallback e.core dtWall) := by
  constructor
  · intro hns
    unfold PhysicsEngine.update
    rw [if_pos hns]
  · intro hrun
    unfold PhysicsEngine.update
    rw [if_neg (by simp [hrun])]
    rw [updateStats_core]
    have hcore0 : EngineState.core
        { e with accumulatedTime := e.accumulatedTime + dtWall * e.timeScale }
        = { e.core with accumulatedTime := e.core.accumulatedTime + e.timeScale * dtWall } := by
      unfold EngineState.core
      simp only
      congr 1
      ring
    have hloop := loop_core_commute e.timeStep e.integrator e.fieldManager e.accelerator
      e.lossCallback e.maxStepsPerFrame
      { e with accumulatedTime := e.accumulatedTime + dtWall * e.timeScale }
      rfl rfl rfl rfl rfl
    rw [hcore0] at hloop
    unfold specUpdate
    by_cases hcap :
        (specLoop e.timeStep e.integrator e.fieldManager e.accelerator e.lossCallback
          { e.core with accumulatedTime := e.core.accumulatedTime + e.timeScale * dtWall }
          e.maxStepsPerFrame).2 ≥ e.maxStepsPerFrame ∧
        (specLoop e.timeStep e.integrator e.fieldManager e.accelerator e.lossCallback
          { e.core with accumulatedTime := e.core.accumulatedTime + e.timeScale * dtWall }
          e.maxStepsPerFrame).1.accumulatedTime > e.timeStep
    · rw [if_pos hcap]
      have hcapCode :
          (PhysicsEngine.updateLoop
            { e with accumulatedTime := e.accumulatedTime + dtWall * e.timeScale }
            e.maxStepsPerFrame).2 ≥ e.maxStepsPerFrame ∧
          (PhysicsEngine.updateLoop
            { e with accumulatedTime := e.accumulatedTime + dtWall * e.timeScale }
            e.maxStepsPerFrame).1.accumulatedTime >
          (PhysicsEngine.updateLoop
            { e with accumulatedTime := e.accumulatedTime + dtWall * e.timeScale }
            e.maxStepsPerFrame).1.timeStep := by
        constructor
        · rw [hloop.2.1]; exact hcap.1
        · rw [hloop.2.2]
          have : (PhysicsEngine.updateLoop
              { e with accumulatedTime := e.accumulatedTime + dtWall * e.timeScale }
              e.maxStepsPerFrame).1.accumulatedTime =
            (specLoop e.timeStep e.integrator e.fieldManager e.accelerator e.lossCallback
              { e.core with
                accumulatedTime := e.core.accumulatedTime + e.timeScale * dtWall }
              e.maxStepsPerFrame).1.accumulatedTime := congrArg EngineCore.accumulatedTime
              hloop.1
          rw [this]
          exact hcap.2
      rw [if_pos hcapCode]
      show EngineState.core _ = _
      have : EngineState.core
          { (PhysicsEngine.updateLoop
              { e with accumulatedTime := e.accumulatedTime + dtWall * e.timeScale }
              e.maxStepsPerFrame).1 with accumulatedTime := 0 }
          = { EngineState.core (PhysicsEngine.updateLoop
              { e with accumulatedTime := e.accumulatedTime + dtWall * e.timeScale }
              e.maxStepsPerFrame).1 with accumulatedTime := 0 } := rfl
      rw [this, hloop.1]
    · rw [if_neg hcap]
      have hcapCode :
          ¬ ((PhysicsEngine.updateLoop
            { e with accumulatedTime := e.accumulatedTime + dtWall * e.timeScale }
            e.maxStepsPerFrame).2 ≥ e.maxStepsPerFrame ∧
          (PhysicsEngine.updateLoop
            { e with accumulatedTime := e.accumulatedTime + dtWall * e.timeScale }
            e.maxStepsPerFrame).1.accumulatedTime >
          (PhysicsEngine.updateLoop
            { e with accumulatedTime := e.accumulatedTime + dtWall * e.timeScale }
            e.maxStepsPerFrame).1.timeStep) := by
        intro hcon
        apply hcap
        constructor
        · rw [← hloop.2.1]; exact hcon.1
        · have : (PhysicsEngine.updateLoop
              { e with accumulatedTime := e.accumulatedTime + dtWall * e.timeScale }
              e.maxStepsPerFrame).1.accumulatedTime =
            (specLoop e.timeStep e.integrator e.fieldManager e.accelerator e.lossCallback
              { e.core with
                accumulatedTime := e.core.accumulatedTime + e.timeScale * dtWall }
              e.maxStepsPerFrame).1.accumulatedTime := congrArg EngineCore.accumulatedTime
              hloop.1
          rw [← this]
          have h2 := hcon.2
          rw [hloop.2.2] at h2
          exact h2
      rw [if_neg hcapCode]
      exact hloop.1

/-- Witness for claim C3: the not-Running hypothesis at a concrete paused
engine and the Running hypothesis at a concrete running engine. -/
theorem claim_C3_engine_update_witness :
    ((EngineState.mk SimulationState.Paused 1 1 1 0 0 [] 0 ⟨[]⟩ none
        (fun _ _ _ p => p) false [] 0 0 0 0 0 0 0 0 0).state ≠ SimulationState.Running ∧
      PhysicsEngine.update (EngineState.mk SimulationState.Paused 1 1 1 0 0 [] 0 ⟨[]⟩ none
        (fun _ _ _ p => p) false [] 0 0 0 0 0 0 0 0 0) 1
        = EngineState.mk SimulationState.Paused 1 1 1 0 0 [] 0 ⟨[]⟩ none
            (fun _ _ _ p => p) false [] 0 0 0 0 0 0 0 0 0) ∧
    ((EngineState.mk SimulationState.Running 1 1 1 0 0 [] 0 ⟨[]⟩ none
        (fun _ _ _ p => p) false [] 0 0 0 0 0 0 0 0 0).state = SimulationState.Running ∧
      EngineState.core (PhysicsEngine.update (EngineState.mk SimulationState.Running 1 1 1
          0 0 [] 0 ⟨[]⟩ none (fun _ _ _ p => p) false [] 0 0 0 0 0 0 0 0 0) 1)
        = specUpdate 1 1 1 (fun _ _ _ p => p) ⟨[]⟩ none false
            (EngineState.core (EngineState.mk SimulationState.Running 1 1 1 0 0 [] 0 ⟨[]⟩
              none (fun _ _ _ p => p) false [] 0 0 0 0 0 0 0 0 0)) 1) := by
  constructor
  · refine ⟨by simp, ?_⟩
    exact (claim_C3_engine_update (EngineState.mk SimulationState.Paused 1 1 1 0 0 [] 0
      ⟨[]⟩ none (fun _ _ _ p => p) false [] 0 0 0 0 0 0 0 0 0) 1).1 (by simp)
  · refine ⟨rfl, ?_⟩
    exact (claim_C3_engine_update (EngineState.mk SimulationState.Running 1 1 1 0 0 [] 0
      ⟨[]⟩ none (fun _ _ _ p => p) false [] 0 0 0 0 0 0 0 0 0) 1).2 rfl

end pas.physics


